import Mathlib

/-!
# Verification of `service_line.py`

A shallow embedding of the discrete-event service-line simulator
(`src/service_line.py`): the request state machine (`myServiceRequest`),
the per-time-unit dispatch engine with five policies plus priority
pre-emption (`myServiceLine`), and the one-level hierarchy
(`myServiceLineHierarchy`).

Modelling notes:
* Python's pseudo-random draws (`random.random()`, `random.randint`,
  `random.choice`) are replaced by an explicit oracle of streams supplied
  as input; each comparison `random.random() < p` becomes a `Bool` read
  from the oracle, `randint(1,M)` becomes `o % M + 1` for an oracle value
  `o`, and `random.choice(queue)` picks index `o % queue.length`.
  All theorems quantify over the oracle.
* Python requests hold direct object references to the sub-requests they
  wait for; the embedding stores their identifiers
  (`list_of_requests_it_is_waiting_for : List Nat`) and `serve_request`
  receives a `lookup : Nat → Bool` telling whether the request with a given
  identifier is currently completed.  The hierarchy instantiates `lookup`
  by scanning the collaborator queues (identifiers are globally unique,
  allocated from the threaded counter that models the global `ID_REQUESTS`).
* `print(...); quit()` paths are modelled with `Except SimError`.
* `service_line_id` / `hierarchy_id` are only used by diagnostic printing
  in the source and are omitted.
* The fractional statistics (`percentage_of_active_requests`, the averages
  in the performance vector) are exact: they are kept as unreduced
  numerator/denominator pairs (`Frac`), with `Frac.toRat` giving the
  rational value they denote.
-/

/-! ## Simulation parameters (the constants of the source) -/

def TOTAL_NR_OF_TIME_UNITS : Nat := 3000
def TIME_TO_SERVE_A_REQUEST : Nat := 20
def MULTIPLICATION_FACTOR : Nat := 2
def RANDOM_VARIABLE_WEIGHTS : Bool := true
def RANDOM_PRIORITY_SET : Bool := true
def NR_OF_COLLABORATORS : Nat := 3

def RANDOM_MAX_TIME_TO_SERVE_A_REQUEST : Nat :=
  MULTIPLICATION_FACTOR * TIME_TO_SERVE_A_REQUEST

/-- Request status values (`ACTIVE_REQUEST`, `REQUEST_COMPLETION`,
`WAITING_REQUEST` in the source). -/
inductive RequestStatus
  | ACTIVE_REQUEST
  | REQUEST_COMPLETION
  | WAITING_REQUEST
deriving DecidableEq, Repr

/-- The five dispatch strategies (`SEQUENTIAL` … `RANDOMCHOICE`). -/
inductive ServiceType
  | SEQUENTIAL
  | CONCURRENT
  | LOOKFORMAX
  | LOOKFORMIN
  | RANDOMCHOICE
deriving DecidableEq, Repr

/-- The fatal `print(...); quit()` exits of the source. -/
inductive SimError
  /-- `ERROR FROM .serve_request(): bad request waiting status` -/
  | badWaiting
  /-- `SIMULATION WARNING: there are not completed requests …` -/
  | noCompleted
deriving DecidableEq, Repr

open RequestStatus ServiceType

/-! ## `myServiceRequest` -/

/-- One service request (class `myServiceRequest`).  `time_to_live` and
`minimum_duration` are Python ints, hence `Int` here. -/
structure myServiceRequest where
  service_id : Nat
  time_to_start : Nat
  time_to_live : Int
  minimum_duration : Int
  time_of_completion : Option Nat
  status : RequestStatus
  priority : Bool
  list_of_requests_it_is_waiting_for : List Nat
deriving DecidableEq, Repr

/-- The constructor `myServiceRequest.__init__`: the identifier is taken
from the threaded global counter by the caller. -/
def mkRequest (service_id time_to_start : Nat) (time_to_live : Nat)
    (activate_priority : Bool) (deps : List Nat) : myServiceRequest :=
  { service_id := service_id
    time_to_start := time_to_start
    time_to_live := time_to_live
    minimum_duration := time_to_live
    time_of_completion := none
    status := if deps = [] then ACTIVE_REQUEST else WAITING_REQUEST
    priority := activate_priority
    list_of_requests_it_is_waiting_for := deps }

/-- `myServiceRequest.serve_request`.  `lookup` resolves a dependency
identifier to "is that request currently completed" (the Python code reads
`r.status != REQUEST_COMPLETION` through the stored object reference). -/
def myServiceRequest.serve_request (self : myServiceRequest)
    (time_unit : Nat) (lookup : Nat → Bool) :
    Except SimError (myServiceRequest × Bool) :=
  match self.status with
  | ACTIVE_REQUEST =>
    let r := { self with time_to_live := self.time_to_live - 1 }
    if r.time_to_live > 0 then
      .ok (r, true)
    else
      .ok ({ r with status := REQUEST_COMPLETION,
                    time_of_completion := some time_unit }, true)
  | WAITING_REQUEST =>
    if self.list_of_requests_it_is_waiting_for = [] then
      .error .badWaiting
    else if self.list_of_requests_it_is_waiting_for.all lookup then
      .ok ({ self with status := ACTIVE_REQUEST }, true)
    else
      .ok (self, false)
  | REQUEST_COMPLETION => .ok (self, false)

/-! ## `myServiceLine` -/

/-- An exact, unreduced fraction: the model's representation of the
floating-point statistics of the source (a quotient `num / den`). -/
structure Frac where
  num : Int
  den : Nat
deriving DecidableEq, Repr

/-- The rational value a `Frac` denotes. -/
def Frac.toRat (f : Frac) : Rat := (f.num : Rat) / (f.den : Rat)

/-- Arrival-log entry: `(time_unit, time_to_serve, priority, was_delegated)`. -/
abbrev LogEntry := Nat × Nat × Bool × Bool

/-- State of a service line (class `myServiceLine`). -/
structure myServiceLine where
  queue : List myServiceRequest
  arrivals : List LogEntry
  nr_of_times_empty_line : Nat
  percentage_of_active_requests : Frac
  accumulate_nr_of_active_requests : Nat
  max_nr_of_pending_requests : Nat
  concurrent_idx : Nat
  service_type : ServiceType
deriving DecidableEq, Repr

/-- The `myServiceLine` constructor (for a recognized service type
the `else: quit()` branch of the constructor is unrepresentable as
`ServiceType` is a closed enumeration). -/
def mkLine (service_type : ServiceType) : myServiceLine :=
  { queue := []
    arrivals := []
    nr_of_times_empty_line := 0
    percentage_of_active_requests := { num := 0, den := 1 }
    accumulate_nr_of_active_requests := 0
    max_nr_of_pending_requests := 0
    concurrent_idx := 0
    service_type := service_type }

/-- Number of requests of a queue in `ACTIVE_REQUEST` status. -/
def activeCount (q : List myServiceRequest) : Nat :=
  (q.filter (fun r => decide (r.status = ACTIVE_REQUEST))).length

/-- `myServiceLine.insert_new_incoming_request`, threading the global
`ID_REQUESTS` counter.  Returns the new line state, the created request
(whose identity a hierarchy needs) and the next counter value. -/
def insert_new_incoming_request (self : myServiceLine) (next_id : Nat)
    (time_unit : Nat) (time_to_serve_the_request : Nat)
    (activate_priority : Bool) (deps : List Nat) :
    myServiceLine × myServiceRequest × Nat :=
  let r := mkRequest next_id time_unit time_to_serve_the_request
      activate_priority deps
  let q := self.queue ++ [r]
  let l := activeCount q
  ({ self with
      queue := q
      max_nr_of_pending_requests :=
        if l > self.max_nr_of_pending_requests then l
        else self.max_nr_of_pending_requests
      arrivals := self.arrivals ++
        [(time_unit, time_to_serve_the_request, activate_priority,
          decide (deps ≠ []))] },
    r, next_id + 1)

/-- The priority pre-emption scan of `process_queued_requests`:
`for r in self.queue: if r.priority: if r.serve_request(t): return True`.
Returns the updated queue and whether some priority request reported work. -/
def servePriority (time_unit : Nat) (lookup : Nat → Bool) :
    List myServiceRequest → Except SimError (List myServiceRequest × Bool)
  | [] => .ok ([], false)
  | r :: rs =>
    if r.priority then
      match r.serve_request time_unit lookup with
      | .error e => .error e
      | .ok (r', true) => .ok (r' :: rs, true)
      | .ok (r', false) =>
        match servePriority time_unit lookup rs with
        | .error e => .error e
        | .ok (rs', done) => .ok (r' :: rs', done)
    else
      match servePriority time_unit lookup rs with
      | .error e => .error e
      | .ok (rs', done) => .ok (r :: rs', done)

/-- The `SEQUENTIAL` loop: serve the first request whose `serve_request`
returns `True`. -/
def serveSequential (time_unit : Nat) (lookup : Nat → Bool) :
    List myServiceRequest → Except SimError (List myServiceRequest × Bool)
  | [] => .ok ([], false)
  | r :: rs =>
    match r.serve_request time_unit lookup with
    | .error e => .error e
    | .ok (r', true) => .ok (r' :: rs, true)
    | .ok (r', false) =>
      match serveSequential time_unit lookup rs with
      | .error e => .error e
      | .ok (rs', done) => .ok (r' :: rs', done)

/-- The `CONCURRENT` loop: serve every request in turn, and count as
"this tick's work" the first one that both reports work done and has
identifier strictly greater than the rotation cursor; requests visited
before it keep the effect of having been served.  Returns the updated
queue and the identifier counted, if any. -/
def serveConcurrent (time_unit : Nat) (lookup : Nat → Bool)
    (concurrent_idx : Nat) :
    List myServiceRequest → Except SimError (List myServiceRequest × Option Nat)
  | [] => .ok ([], none)
  | r :: rs =>
    match r.serve_request time_unit lookup with
    | .error e => .error e
    | .ok (r', done) =>
      if done ∧ r'.service_id > concurrent_idx then
        .ok (r' :: rs, some r'.service_id)
      else
        match serveConcurrent time_unit lookup concurrent_idx rs with
        | .error e => .error e
        | .ok (rs', res) => .ok (r' :: rs', res)

/-- The `LOOKFORMAX` scan: running maximum of `time_to_live` initialized
to `-1`, keeping the index of the request currently holding the maximum. -/
def scanMax : List myServiceRequest → Int → Option Nat → Nat → Option Nat
  | [], _, best, _ => best
  | r :: rs, max_weight, best, i =>
    if r.time_to_live > max_weight then
      scanMax rs r.time_to_live (some i) (i + 1)
    else
      scanMax rs max_weight best (i + 1)

/-- The `LOOKFORMIN` scan: running minimum of `time_to_live` initialized
to the sentinel `3*RANDOM_MAX_TIME_TO_SERVE_A_REQUEST`. -/
def scanMin : List myServiceRequest → Int → Option Nat → Nat → Option Nat
  | [], _, best, _ => best
  | r :: rs, min_weight, best, i =>
    if r.time_to_live < min_weight then
      scanMin rs r.time_to_live (some i) (i + 1)
    else
      scanMin rs min_weight best (i + 1)

/-- Serve the request at index `i` of the queue in place (the source
mutates the selected object through its reference).  The out-of-bounds
branch is unreachable: the scans only produce in-bounds indices. -/
def serveAt (time_unit : Nat) (lookup : Nat → Bool)
    (q : List myServiceRequest) (i : Nat) :
    Except SimError (List myServiceRequest) :=
  match q.get? i with
  | none => .ok q
  | some r =>
    match r.serve_request time_unit lookup with
    | .error e => .error e
    | .ok (r', _) => .ok (q.set i r')

/-- The statistics bookkeeping done at the top of
`process_queued_requests` when the queue is non-empty. -/
def dispatchStats (self : myServiceLine) : myServiceLine :=
  { self with
      accumulate_nr_of_active_requests :=
        self.accumulate_nr_of_active_requests + activeCount self.queue
      percentage_of_active_requests :=
        { num := activeCount self.queue, den := self.queue.length } }

/-- The part of `process_queued_requests` that runs before the configured
strategy: statistics bookkeeping plus the mandatory priority pre-emption
scan, both only when the queue is non-empty. -/
def preludeStep (self : myServiceLine) (time_unit : Nat)
    (lookup : Nat → Bool) : Except SimError (myServiceLine × Bool) :=
  if self.queue.length > 0 then
    let s := dispatchStats self
    let l_priority := (s.queue.filter (fun r => r.priority)).length
    if l_priority > 0 then
      match servePriority time_unit lookup s.queue with
      | .error e => .error e
      | .ok (q', done) => .ok ({ s with queue := q' }, done)
    else .ok (s, false)
  else .ok (self, false)

/-- The configured-strategy part of `process_queued_requests` (the
`if self.service_type == …` chain). -/
def policyStep (s : myServiceLine) (time_unit : Nat)
    (lookup : Nat → Bool) (pick : Nat) :
    Except SimError (myServiceLine × Bool) :=
  match s.service_type with
    | SEQUENTIAL =>
      match serveSequential time_unit lookup s.queue with
      | .error e => .error e
      | .ok (q', true) => .ok ({ s with queue := q' }, true)
      | .ok (q', false) =>
        .ok ({ s with
                queue := q'
                nr_of_times_empty_line := s.nr_of_times_empty_line + 1 },
             false)
    | CONCURRENT =>
      match serveConcurrent time_unit lookup s.concurrent_idx s.queue with
      | .error e => .error e
      | .ok (q', some sid) =>
        let remaining := q'.filter (fun r1 =>
          decide ((r1.status = ACTIVE_REQUEST ∨ r1.status = WAITING_REQUEST)
            ∧ r1.service_id > sid))
        .ok ({ s with
                queue := q'
                concurrent_idx := if remaining.length = 0 then 0 else sid },
             true)
      | .ok (q', none) =>
        .ok ({ s with
                queue := q'
                nr_of_times_empty_line := s.nr_of_times_empty_line + 1 },
             false)
    | LOOKFORMAX =>
      match scanMax s.queue (-1) none 0 with
      | none =>
        .ok ({ s with
               nr_of_times_empty_line := s.nr_of_times_empty_line + 1 },
             false)
      | some i =>
        match serveAt time_unit lookup s.queue i with
        | .error e => .error e
        | .ok q' => .ok ({ s with queue := q' }, true)
    | LOOKFORMIN =>
      match scanMin s.queue (3 * RANDOM_MAX_TIME_TO_SERVE_A_REQUEST) none 0 with
      | none =>
        .ok ({ s with
               nr_of_times_empty_line := s.nr_of_times_empty_line + 1 },
             false)
      | some i =>
        match serveAt time_unit lookup s.queue i with
        | .error e => .error e
        | .ok q' => .ok ({ s with queue := q' }, true)
    | RANDOMCHOICE =>
      if s.queue = [] then
        .ok ({ s with
               nr_of_times_empty_line := s.nr_of_times_empty_line + 1 },
             false)
      else
        match serveAt time_unit lookup s.queue (pick % s.queue.length) with
        | .error e => .error e
        | .ok q' => .ok ({ s with queue := q' }, true)

/-- `myServiceLine.process_queued_requests`: priority pre-emption first
(returning immediately when it reports work), then the configured
strategy.  `pick` is the oracle value backing the single `random.choice`
draw a `RANDOMCHOICE` call may make. -/
def process_queued_requests (self : myServiceLine) (time_unit : Nat)
    (lookup : Nat → Bool) (pick : Nat) :
    Except SimError (myServiceLine × Bool) :=
  match preludeStep self time_unit lookup with
  | .error e => .error e
  | .ok (s, true) => .ok (s, true)
  | .ok (s, false) => policyStep s time_unit lookup pick

/-! ## Oracle and the timeline simulation `myServiceLine.run` -/

/-- The pseudo-random oracle: one stream per kind of draw the source makes.
`arrive u` stands for `random.random() < REQUEST_PROBABILITY_PER_TIME_UNIT`
at time unit `u`; `weight u` backs `randint(1, RANDOM_MAX…)`; `prio u`
stands for `random.random() < PRIORITY_PROBABILITY_PER_REQUEST`; `sub u`
stands for `random.random() < SUBREQUEST_PROBABILITY_PER_REQUEST`; and
`pick k` backs the `random.choice` draw with serial number `k`. -/
structure Oracle where
  arrive : Nat → Bool
  weight : Nat → Nat
  prio : Nat → Bool
  sub : Nat → Bool
  pick : Nat → Nat

/-- `randint(1, RANDOM_MAX_TIME_TO_SERVE_A_REQUEST)` driven by the oracle
value `o`: a value in `[1, RANDOM_MAX_TIME_TO_SERVE_A_REQUEST]`. -/
def randWeight (o : Nat) : Nat :=
  o % RANDOM_MAX_TIME_TO_SERVE_A_REQUEST + 1

/-- The workload drawn for a generated arrival
(`random_time_to_serve_a_request` in `run`). -/
def drawnWeight (o : Oracle) (time_unit : Nat) : Nat :=
  if RANDOM_VARIABLE_WEIGHTS then randWeight (o.weight time_unit)
  else TIME_TO_SERVE_A_REQUEST

/-- The priority drawn for a generated arrival
(`activate_prioritized_request` in `run`). -/
def drawnPriority (o : Oracle) (time_unit : Nat) : Bool :=
  if RANDOM_PRIORITY_SET then o.prio time_unit else false

/-- One time unit of `myServiceLine.run`: either admit an arrival
(generated, or the first log entry of this unit on replay) or serve the
queued requests.  Threads the global `ID_REQUESTS` counter. -/
def lineUnit (o : Oracle) (arrivals : List LogEntry)
    (st : myServiceLine × Nat) (time_unit : Nat) :
    Except SimError (myServiceLine × Nat) :=
  let (s, next_id) := st
  if arrivals = [] then
    if o.arrive time_unit then
      let (s', _, next_id') := insert_new_incoming_request s next_id
        time_unit (drawnWeight o time_unit) (drawnPriority o time_unit) []
      .ok (s', next_id')
    else
      match process_queued_requests s time_unit (fun _ => false)
          (o.pick time_unit) with
      | .error e => .error e
      | .ok (s', _) => .ok (s', next_id)
  else
    match arrivals.filter (fun e => decide (e.1 = time_unit)) with
    | [] =>
      match process_queued_requests s time_unit (fun _ => false)
          (o.pick time_unit) with
      | .error e => .error e
      | .ok (s', _) => .ok (s', next_id)
    | (_, time_to_serve_the_request, activate_priority, _) :: _ =>
      let (s', _, next_id') := insert_new_incoming_request s next_id
        time_unit time_to_serve_the_request activate_priority []
      .ok (s', next_id')

/-- Run `count` consecutive time units starting at unit `start`. -/
def lineUnits (o : Oracle) (arrivals : List LogEntry) :
    Nat → Nat → myServiceLine × Nat → Except SimError (myServiceLine × Nat)
  | _, 0, st => .ok st
  | start, count + 1, st =>
    match lineUnit o arrivals st start with
    | .error e => .error e
    | .ok st' => lineUnits o arrivals (start + 1) count st'

/-- The five performance parameters returned by `run` (exact fractions in
place of the floats of the `np.array`). -/
structure PerfVector where
  average_extra_duration : Frac
  average_active_requests_for_time_unit : Frac
  nr_of_times_empty_line : Nat
  percentage_of_active_requests : Frac
  max_nr_of_pending_requests : Nat
deriving DecidableEq, Repr

/-- The extra working time of a completed request,
`time_of_completion - time_to_start - minimum_duration` (the
`time_of_completion` of a completed request is always set). -/
def extraDuration (r : myServiceRequest) : Int :=
  (r.time_of_completion.getD 0 : Int) - r.time_to_start - r.minimum_duration

/-- The completed requests of a queue. -/
def completedOf (q : List myServiceRequest) : List myServiceRequest :=
  q.filter (fun r => decide (r.status = REQUEST_COMPLETION))

/-- The end-of-run statistics of `myServiceLine.run` (and, applied to the
chief, of `myServiceLineHierarchy.run`): fatal if no request completed. -/
def perfOf (s : myServiceLine) : Except SimError PerfVector :=
  let d := (completedOf s.queue).map extraDuration
  if d = [] then .error .noCompleted
  else
    .ok { average_extra_duration := { num := d.sum, den := d.length }
          average_active_requests_for_time_unit :=
            { num := s.accumulate_nr_of_active_requests,
              den := TOTAL_NR_OF_TIME_UNITS }
          nr_of_times_empty_line := s.nr_of_times_empty_line
          percentage_of_active_requests := s.percentage_of_active_requests
          max_nr_of_pending_requests := s.max_nr_of_pending_requests }

/-- `myServiceLine.run` on a freshly constructed line, threading the
global request-identifier counter whose value at construction time is
`next_id`. -/
def lineRun (service_type : ServiceType) (arrivals : List LogEntry)
    (o : Oracle) (next_id : Nat) : Except SimError PerfVector :=
  match lineUnits o arrivals 0 TOTAL_NR_OF_TIME_UNITS
      (mkLine service_type, next_id) with
  | .error e => .error e
  | .ok (s, _) => perfOf s

/-! ## `myServiceLineHierarchy` -/

/-- One chief line plus a fixed list of collaborator lines. -/
structure myServiceLineHierarchy where
  chief : myServiceLine
  list_of_collaborators : List myServiceLine
deriving DecidableEq, Repr

/-- The `myServiceLineHierarchy` constructor. -/
def mkHierarchy (chief_service_type : ServiceType)
    (nr_of_collaborators : Nat) (collaborator_service_type : ServiceType) :
    myServiceLineHierarchy :=
  { chief := mkLine chief_service_type
    list_of_collaborators :=
      List.replicate nr_of_collaborators (mkLine collaborator_service_type) }

/-- Dependency resolution for the chief's waiting requests: the Python
code follows the stored object reference into a collaborator queue and
reads its live `status`; here we find the (globally unique) identifier in
the collaborator queues. -/
def depCompleted (collaborators : List myServiceLine) (dep_id : Nat) : Bool :=
  collaborators.any (fun c =>
    c.queue.any (fun r =>
      decide (r.service_id = dep_id ∧ r.status = REQUEST_COMPLETION)))

/-- Insert one sub-request of the given share into every collaborator
line (the `for i in range(self.nr_of_collaborators)` loop of the
hierarchy's `run`), collecting the created requests' identifiers. -/
def insertSubRequests (time_unit share : Nat) (activate_priority : Bool) :
    List myServiceLine → Nat → List myServiceLine × List Nat × Nat
  | [], next_id => ([], [], next_id)
  | c :: cs, next_id =>
    let (c', r, next_id') := insert_new_incoming_request c next_id
      time_unit share activate_priority []
    let (cs', ids, next_id'') :=
      insertSubRequests time_unit share activate_priority cs next_id'
    (c' :: cs', r.service_id :: ids, next_id'')

/-- The decomposition step of the hierarchy's `run` with generated
arrivals: per-collaborator share `int(w/(n+1)) + 1`, one sub-request per
collaborator, then the delegating request in the chief's queue. -/
def hierDecompose (h : myServiceLineHierarchy) (next_id : Nat)
    (time_unit : Nat) (random_time_to_serve_a_request : Nat)
    (activate_priority : Bool) : myServiceLineHierarchy × Nat :=
  let random_time_to_serve_a_subrequest :=
    random_time_to_serve_a_request / (h.list_of_collaborators.length + 1) + 1
  let (cs', sub_requests, next_id') :=
    insertSubRequests time_unit random_time_to_serve_a_subrequest
      activate_priority h.list_of_collaborators next_id
  let (chief', _, next_id'') := insert_new_incoming_request h.chief next_id'
    time_unit random_time_to_serve_a_subrequest activate_priority
    sub_requests
  ({ chief := chief', list_of_collaborators := cs' }, next_id'')

/-- Serve all collaborator queues in order (the loop
`for i in range(…): collaborator[i].process_queued_requests(t)`).
The `random.choice` draws of distinct lines in the same unit are backed
by distinct oracle serial numbers. -/
def processCollaborators (o : Oracle) (time_unit : Nat) (pick_base : Nat) :
    List myServiceLine → Except SimError (List myServiceLine)
  | [] => .ok []
  | c :: cs =>
    match process_queued_requests c time_unit (fun _ => false)
        (o.pick pick_base) with
    | .error e => .error e
    | .ok (c', _) =>
      match processCollaborators o time_unit (pick_base + 1) cs with
      | .error e => .error e
      | .ok cs' => .ok (c' :: cs')

/-- One time unit of `myServiceLineHierarchy.run`. -/
def hierUnit (o : Oracle) (arrivals : List LogEntry)
    (st : myServiceLineHierarchy × Nat) (time_unit : Nat) :
    Except SimError (myServiceLineHierarchy × Nat) :=
  let (h, next_id) := st
  let nr_of_collaborators := h.list_of_collaborators.length
  let pick_base := time_unit * (nr_of_collaborators + 1)
  let dispatchAll : Except SimError (myServiceLineHierarchy × Nat) :=
    match process_queued_requests h.chief time_unit
        (depCompleted h.list_of_collaborators) (o.pick pick_base) with
    | .error e => .error e
    | .ok (chief', _) =>
      match processCollaborators o time_unit (pick_base + 1)
          h.list_of_collaborators with
      | .error e => .error e
      | .ok cs' =>
        .ok ({ chief := chief', list_of_collaborators := cs' }, next_id)
  if arrivals = [] then
    if o.arrive time_unit then
      let w := drawnWeight o time_unit
      let pr := drawnPriority o time_unit
      if o.sub time_unit then
        .ok (hierDecompose h next_id time_unit w pr)
      else
        let (chief', _, next_id') := insert_new_incoming_request h.chief
          next_id time_unit w pr []
        .ok ({ h with chief := chief' }, next_id')
    else dispatchAll
  else
    match arrivals.filter (fun e => decide (e.1 = time_unit)) with
    | [] => dispatchAll
    | (_, time_to_serve_the_request, activate_priority, delegated) :: _ =>
      if delegated then
        let (cs', sub_requests, next_id') :=
          insertSubRequests time_unit time_to_serve_the_request
            activate_priority h.list_of_collaborators next_id
        let (chief', _, next_id'') := insert_new_incoming_request h.chief
          next_id' time_unit time_to_serve_the_request activate_priority
          sub_requests
        .ok ({ chief := chief', list_of_collaborators := cs' }, next_id'')
      else
        let (chief', _, next_id') := insert_new_incoming_request h.chief
          next_id time_unit time_to_serve_the_request activate_priority []
        .ok ({ h with chief := chief' }, next_id')

/-- Run `count` consecutive hierarchy time units starting at `start`. -/
def hierUnits (o : Oracle) (arrivals : List LogEntry) :
    Nat → Nat → myServiceLineHierarchy × Nat →
    Except SimError (myServiceLineHierarchy × Nat)
  | _, 0, st => .ok st
  | start, count + 1, st =>
    match hierUnit o arrivals st start with
    | .error e => .error e
    | .ok st' => hierUnits o arrivals (start + 1) count st'

/-- `myServiceLineHierarchy.run` on a freshly constructed hierarchy: the
performance vector is computed from the chief's queue only. -/
def hierRun (chief_service_type : ServiceType) (nr_of_collaborators : Nat)
    (collaborator_service_type : ServiceType) (arrivals : List LogEntry)
    (o : Oracle) (next_id : Nat) : Except SimError PerfVector :=
  match hierUnits o arrivals 0 TOTAL_NR_OF_TIME_UNITS
      (mkHierarchy chief_service_type nr_of_collaborators
        collaborator_service_type, next_id) with
  | .error e => .error e
  | .ok (h, _) => perfOf h.chief

/-! ## Basic facts about `serve_request` -/

/-! ## Predicates, invariants and auxiliary states used by the proofs -/

/-- Relation between a queued request before and after one dispatch call:
it is either untouched or the result of one `serve_request` application
at this time unit. -/
def ServedStep (t : Nat) (lookup : Nat → Bool)
    (r r' : myServiceRequest) : Prop :=
  r' = r ∨ ∃ b, r.serve_request t lookup = .ok (r', b)

/-- Requests that can be served without a fatal error: every waiting
request has a non-empty dependency list. -/
def WellDep (r : myServiceRequest) : Prop :=
  r.status = WAITING_REQUEST → r.list_of_requests_it_is_waiting_for ≠ []

/-- Invariant of a request in a queue once the time units `0, …, u-1`
have been processed: it arrived at an earlier unit; its original workload
is non-negative; while Active its remaining workload is non-negative and
it has been decremented at most once per elapsed unit since arrival;
while Waiting it is untouched and has dependencies; once Completed its
completion time exceeds arrival time plus original workload. -/
def GoodReq (u : Nat) (r : myServiceRequest) : Prop :=
  r.time_to_start < u ∧ 0 ≤ r.minimum_duration ∧
  (r.status = ACTIVE_REQUEST →
    0 ≤ r.time_to_live ∧
    r.minimum_duration - r.time_to_live ≤
      (u : Int) - 1 - (r.time_to_start : Int)) ∧
  (r.status = WAITING_REQUEST →
    r.time_to_live = r.minimum_duration ∧
    r.list_of_requests_it_is_waiting_for ≠ []) ∧
  (r.status = REQUEST_COMPLETION →
    r.time_to_live ≤ 0 ∧
    ∃ c, r.time_of_completion = some c ∧
      0 ≤ (c : Int) - (r.time_to_start : Int) - r.minimum_duration)

/-- All requests of a line's queue satisfy the invariant. -/
def GoodQueue (u : Nat) (s : myServiceLine) : Prop :=
  ∀ r ∈ s.queue, GoodReq u r

/-- All queues of a hierarchy satisfy the invariant. -/
def GoodHier (u : Nat) (h : myServiceLineHierarchy) : Prop :=
  GoodQueue u h.chief ∧ ∀ c ∈ h.list_of_collaborators, GoodQueue u c

/-- The all-zero oracle: no generated arrivals, zero draws. -/
def zeroOracle : Oracle :=
  { arrive := fun _ => false
    weight := fun _ => 0
    prio := fun _ => false
    sub := fun _ => false
    pick := fun _ => 0 }

/-- The rotation-cursor invariant: the cursor is `0` or the identifier
of a queued request. -/
def CursorInv (s : myServiceLine) : Prop :=
  s.concurrent_idx = 0 ∨ ∃ r ∈ s.queue, r.service_id = s.concurrent_idx

/-- Decidable equality of run results, for concrete evaluation. -/
instance {e a : Type _} [DecidableEq e] [DecidableEq a] :
    DecidableEq (Except e a)
  | .error x, .error y => decidable_of_iff (x = y) (by simp)
  | .error x, .ok y => isFalse (by simp)
  | .ok x, .error y => isFalse (by simp)
  | .ok x, .ok y => decidable_of_iff (x = y) (by simp)

/-- A priority-flagged Active request with identifier 1 (counterexample
input for the cursor claim). -/
def reqC5 : myServiceRequest :=
  { service_id := 1, time_to_start := 0, time_to_live := 2,
    minimum_duration := 2, time_of_completion := none,
    status := ACTIVE_REQUEST, priority := true,
    list_of_requests_it_is_waiting_for := [] }

/-- A Concurrent-strategy line holding only `reqC5`, cursor `0`. -/
def lineC5 : myServiceLine :=
  { queue := [reqC5], arrivals := [(0, 2, true, false)],
    nr_of_times_empty_line := 0,
    percentage_of_active_requests := { num := 0, den := 1 },
    accumulate_nr_of_active_requests := 0,
    max_nr_of_pending_requests := 1, concurrent_idx := 0,
    service_type := CONCURRENT }

/-- The single-line run invariant for the peak counter: no Waiting
request ever exists, and the current Active count never exceeds the peak
counter. -/
def SingleInv (s : myServiceLine) : Prop :=
  (∀ r ∈ s.queue, r.status ≠ WAITING_REQUEST) ∧
  activeCount s.queue ≤ s.max_nr_of_pending_requests

/-- Shift every identifier of a request by `d`. -/
def reqShift (d : Nat) (r : myServiceRequest) : myServiceRequest :=
  { r with
      service_id := r.service_id + d
      list_of_requests_it_is_waiting_for :=
        r.list_of_requests_it_is_waiting_for.map (· + d) }

/-- Shift a whole line state by `d`: every queued request's identifier,
and the rotation cursor unless it is `0`. -/
def lineShift (d : Nat) (s : myServiceLine) : myServiceLine :=
  { s with
      queue := s.queue.map (reqShift d)
      concurrent_idx :=
        if s.concurrent_idx = 0 then 0 else s.concurrent_idx + d }

/-- Positivity of queued identifiers (all identifiers are allocated from
a counter that starts at 1). -/
def IdsPos (s : myServiceLine) : Prop := ∀ r ∈ s.queue, 1 ≤ r.service_id

/-- A sequential line holding one priority-flagged Active request. -/
def lineW1 : myServiceLine :=
  { mkLine SEQUENTIAL with queue := [mkRequest 1 0 2 true []] }

/-- A Waiting request with one dependency, identifier `7`. -/
def reqW2 : myServiceRequest :=
  { service_id := 2, time_to_start := 0, time_to_live := 3,
    minimum_duration := 3, time_of_completion := none,
    status := WAITING_REQUEST, priority := false,
    list_of_requests_it_is_waiting_for := [7] }

/-- A Completed request with workload `3`, finished at unit `3`. -/
def reqW7 : myServiceRequest :=
  { service_id := 1, time_to_start := 0, time_to_live := 0,
    minimum_duration := 3, time_of_completion := some 3,
    status := REQUEST_COMPLETION, priority := false,
    list_of_requests_it_is_waiting_for := [] }

/-- A LookForMin line holding only the completed request `reqW7`. -/
def lineW7 : myServiceLine :=
  { mkLine LOOKFORMIN with queue := [reqW7] }

/-- A request whose `serve_request` reports no work done is returned
unchanged. -/
theorem serve_request_false {r r' : myServiceRequest} {t : Nat}
    {lookup : Nat → Bool}
    (h : r.serve_request t lookup = .ok (r', false)) : r' = r := by
  unfold myServiceRequest.serve_request at h
  cases hs : r.status <;> rw [hs] at h <;> dsimp only at h
  · split at h <;> simp at h
  · simp only [Except.ok.injEq, Prod.mk.injEq] at h
    exact h.1.symm
  · split at h
    · simp at h
    · split at h
      · simp at h
      · simp only [Except.ok.injEq, Prod.mk.injEq] at h
        exact h.1.symm

/-- `serve_request` succeeds on any request that is not in the invalid
"waiting with no dependencies" state. -/
theorem serve_request_total (r : myServiceRequest) (t : Nat)
    (lookup : Nat → Bool)
    (h : r.status = WAITING_REQUEST →
      r.list_of_requests_it_is_waiting_for ≠ []) :
    ∃ r' b, r.serve_request t lookup = .ok (r', b) := by
  unfold myServiceRequest.serve_request
  cases hs : r.status <;> dsimp only
  · split
    · exact ⟨_, _, rfl⟩
    · exact ⟨_, _, rfl⟩
  · exact ⟨_, _, rfl⟩
  · rw [if_neg (h hs)]
    split
    · exact ⟨_, _, rfl⟩
    · exact ⟨_, _, rfl⟩

/-- `serve_request` never changes the identifier, arrival time, original
workload, priority flag or dependency list of a request. -/
theorem serve_request_frame {r r' : myServiceRequest} {t : Nat}
    {lookup : Nat → Bool} {b : Bool}
    (h : r.serve_request t lookup = .ok (r', b)) :
    r'.service_id = r.service_id ∧ r'.time_to_start = r.time_to_start ∧
    r'.minimum_duration = r.minimum_duration ∧ r'.priority = r.priority ∧
    r'.list_of_requests_it_is_waiting_for =
      r.list_of_requests_it_is_waiting_for := by
  unfold myServiceRequest.serve_request at h
  cases hs : r.status <;> rw [hs] at h <;> dsimp only at h
  · split at h <;>
    · simp only [Except.ok.injEq, Prod.mk.injEq] at h
      obtain ⟨h1, -⟩ := h
      subst h1
      simp
  · simp only [Except.ok.injEq, Prod.mk.injEq] at h
    obtain ⟨h1, -⟩ := h
    subst h1
    simp
  · split at h
    · simp at h
    · split at h <;>
      · simp only [Except.ok.injEq, Prod.mk.injEq] at h
        obtain ⟨h1, -⟩ := h
        subst h1
        simp

/-! ## The queue-step relation: one dispatch call applies `serve_request`
to each queued request at most once -/

theorem servedStep_refl {t : Nat} {lookup : Nat → Bool}
    {r : myServiceRequest} : ServedStep t lookup r r := Or.inl (Eq.refl r)

theorem forall₂_servedStep_refl {t : Nat} {lookup : Nat → Bool}
    (q : List myServiceRequest) :
    List.Forall₂ (ServedStep t lookup) q q :=
  List.forall₂_same.2 (fun _ _ => servedStep_refl)

/-- `List.set` after serving one in-bounds element yields the step
relation. -/
theorem forall₂_servedStep_set {t : Nat} {lookup : Nat → Bool}
    {q : List myServiceRequest} {i : Nat} {r r' : myServiceRequest}
    (hi : q.get? i = some r) {b : Bool}
    (hs : r.serve_request t lookup = .ok (r', b)) :
    List.Forall₂ (ServedStep t lookup) q (q.set i r') := by
  induction q generalizing i with
  | nil => simp at hi
  | cons x xs ih =>
    cases i with
    | zero =>
      simp only [List.get?] at hi
      cases hi
      exact List.Forall₂.cons (Or.inr ⟨b, hs⟩) (forall₂_servedStep_refl xs)
    | succ j =>
      simp only [List.get?] at hi
      exact List.Forall₂.cons servedStep_refl (ih hi)

/-- The priority scan only applies `serve_request` steps. -/
theorem servePriority_rel {t : Nat} {lookup : Nat → Bool}
    {q q' : List myServiceRequest} {done : Bool}
    (h : servePriority t lookup q = .ok (q', done)) :
    List.Forall₂ (ServedStep t lookup) q q' := by
  induction q generalizing q' done with
  | nil =>
    unfold servePriority at h
    simp only [Except.ok.injEq, Prod.mk.injEq] at h
    obtain ⟨h1, -⟩ := h
    subst h1
    exact List.Forall₂.nil
  | cons r rs ih =>
    unfold servePriority at h
    split at h
    · split at h <;> rename_i hserve
      · simp at h
      · rename_i r' -- served, reported work
        simp only [Except.ok.injEq, Prod.mk.injEq] at h
        obtain ⟨h1, -⟩ := h
        subst h1
        exact List.Forall₂.cons (Or.inr ⟨true, hserve⟩)
          (forall₂_servedStep_refl rs)
      · rename_i r'
        split at h <;> rename_i hrec
        · simp at h
        · rename_i rs' done'
          simp only [Except.ok.injEq, Prod.mk.injEq] at h
          obtain ⟨h1, -⟩ := h
          subst h1
          exact List.Forall₂.cons (Or.inr ⟨false, hserve⟩) (ih hrec)
    · split at h <;> rename_i hrec
      · simp at h
      · rename_i rs' done'
        simp only [Except.ok.injEq, Prod.mk.injEq] at h
        obtain ⟨h1, -⟩ := h
        subst h1
        exact List.Forall₂.cons servedStep_refl (ih hrec)

/-- If the priority scan reports no work, it left the queue unchanged. -/
theorem servePriority_false {t : Nat} {lookup : Nat → Bool}
    {q q' : List myServiceRequest}
    (h : servePriority t lookup q = .ok (q', false)) : q' = q := by
  induction q generalizing q' with
  | nil =>
    unfold servePriority at h
    simp only [Except.ok.injEq, Prod.mk.injEq] at h
    exact h.1.symm
  | cons r rs ih =>
    unfold servePriority at h
    split at h
    · split at h <;> rename_i hserve
      · simp at h
      · simp at h
      · have := serve_request_false hserve
        subst this
        split at h <;> rename_i hrec
        · simp at h
        · rename_i rs' done'
          simp only [Except.ok.injEq, Prod.mk.injEq] at h
          obtain ⟨h1, h2⟩ := h
          subst h2
          rw [← h1, ih hrec]
    · split at h <;> rename_i hrec
      · simp at h
      · rename_i rs' done'
        simp only [Except.ok.injEq, Prod.mk.injEq] at h
        obtain ⟨h1, h2⟩ := h
        subst h2
        rw [← h1, ih hrec]

/-- The priority scan cannot fail on a well-formed queue. -/
theorem servePriority_total {t : Nat} {lookup : Nat → Bool}
    {q : List myServiceRequest} (hq : ∀ r ∈ q, WellDep r) :
    ∃ q' done, servePriority t lookup q = .ok (q', done) := by
  induction q with
  | nil => exact ⟨[], false, rfl⟩
  | cons r rs ih =>
    obtain ⟨rs', done, hrec⟩ := ih (fun x hx => hq x (List.mem_cons_of_mem r hx))
    obtain ⟨r', b, hserve⟩ :=
      serve_request_total r t lookup (hq r (List.mem_cons_self r rs))
    unfold servePriority
    by_cases hp : r.priority
    · rw [if_pos hp, hserve]
      cases b
      · rw [hrec]
        exact ⟨_, _, rfl⟩
      · exact ⟨_, _, rfl⟩
    · rw [if_neg hp, hrec]
      exact ⟨_, _, rfl⟩

/-- The sequential loop only applies `serve_request` steps. -/
theorem serveSequential_rel {t : Nat} {lookup : Nat → Bool}
    {q q' : List myServiceRequest} {done : Bool}
    (h : serveSequential t lookup q = .ok (q', done)) :
    List.Forall₂ (ServedStep t lookup) q q' := by
  induction q generalizing q' done with
  | nil =>
    unfold serveSequential at h
    simp only [Except.ok.injEq, Prod.mk.injEq] at h
    obtain ⟨h1, -⟩ := h
    subst h1
    exact List.Forall₂.nil
  | cons r rs ih =>
    unfold serveSequential at h
    split at h <;> rename_i hserve
    · simp at h
    · rename_i r'
      simp only [Except.ok.injEq, Prod.mk.injEq] at h
      obtain ⟨h1, -⟩ := h
      subst h1
      exact List.Forall₂.cons (Or.inr ⟨true, hserve⟩)
        (forall₂_servedStep_refl rs)
    · rename_i r'
      split at h <;> rename_i hrec
      · simp at h
      · rename_i rs' done'
        simp only [Except.ok.injEq, Prod.mk.injEq] at h
        obtain ⟨h1, -⟩ := h
        subst h1
        exact List.Forall₂.cons (Or.inr ⟨false, hserve⟩) (ih hrec)

/-- The sequential loop cannot fail on a well-formed queue. -/
theorem serveSequential_total {t : Nat} {lookup : Nat → Bool}
    {q : List myServiceRequest} (hq : ∀ r ∈ q, WellDep r) :
    ∃ q' done, serveSequential t lookup q = .ok (q', done) := by
  induction q with
  | nil => exact ⟨[], false, rfl⟩
  | cons r rs ih =>
    obtain ⟨rs', done, hrec⟩ := ih (fun x hx => hq x (List.mem_cons_of_mem r hx))
    obtain ⟨r', b, hserve⟩ :=
      serve_request_total r t lookup (hq r (List.mem_cons_self r rs))
    unfold serveSequential
    rw [hserve]
    cases b
    · rw [hrec]
      exact ⟨_, _, rfl⟩
    · exact ⟨_, _, rfl⟩

/-- The concurrent loop only applies `serve_request` steps. -/
theorem serveConcurrent_rel {t : Nat} {lookup : Nat → Bool} {cidx : Nat}
    {q q' : List myServiceRequest} {res : Option Nat}
    (h : serveConcurrent t lookup cidx q = .ok (q', res)) :
    List.Forall₂ (ServedStep t lookup) q q' := by
  induction q generalizing q' res with
  | nil =>
    unfold serveConcurrent at h
    simp only [Except.ok.injEq, Prod.mk.injEq] at h
    obtain ⟨h1, -⟩ := h
    subst h1
    exact List.Forall₂.nil
  | cons r rs ih =>
    unfold serveConcurrent at h
    split at h <;> rename_i hserve
    · simp at h
    · rename_i r' done
      split at h
      · simp only [Except.ok.injEq, Prod.mk.injEq] at h
        obtain ⟨h1, -⟩ := h
        subst h1
        exact List.Forall₂.cons (Or.inr ⟨done, hserve⟩)
          (forall₂_servedStep_refl rs)
      · split at h <;> rename_i hrec
        · simp at h
        · rename_i rs' res'
          simp only [Except.ok.injEq, Prod.mk.injEq] at h
          obtain ⟨h1, -⟩ := h
          subst h1
          exact List.Forall₂.cons (Or.inr ⟨done, hserve⟩) (ih hrec)

/-- The concurrent loop cannot fail on a well-formed queue. -/
theorem serveConcurrent_total {t : Nat} {lookup : Nat → Bool} {cidx : Nat}
    {q : List myServiceRequest} (hq : ∀ r ∈ q, WellDep r) :
    ∃ q' res, serveConcurrent t lookup cidx q = .ok (q', res) := by
  induction q with
  | nil => exact ⟨[], none, rfl⟩
  | cons r rs ih =>
    obtain ⟨rs', res, hrec⟩ := ih (fun x hx => hq x (List.mem_cons_of_mem r hx))
    obtain ⟨r', b, hserve⟩ :=
      serve_request_total r t lookup (hq r (List.mem_cons_self r rs))
    unfold serveConcurrent
    rw [hserve, hrec]
    dsimp only
    split
    · exact ⟨_, _, rfl⟩
    · exact ⟨_, _, rfl⟩

/-- `serveAt` only applies `serve_request` steps. -/
theorem serveAt_rel {t : Nat} {lookup : Nat → Bool}
    {q q' : List myServiceRequest} {i : Nat}
    (h : serveAt t lookup q i = .ok q') :
    List.Forall₂ (ServedStep t lookup) q q' := by
  unfold serveAt at h
  split at h <;> rename_i hget
  · simp only [Except.ok.injEq] at h
    subst h
    exact forall₂_servedStep_refl q
  · rename_i r
    split at h <;> rename_i hserve
    · simp at h
    · rename_i r' b
      simp only [Except.ok.injEq] at h
      subst h
      exact forall₂_servedStep_set hget hserve

/-- `serveAt` cannot fail on a well-formed queue. -/
theorem serveAt_total {t : Nat} {lookup : Nat → Bool}
    {q : List myServiceRequest} (i : Nat) (hq : ∀ r ∈ q, WellDep r) :
    ∃ q', serveAt t lookup q i = .ok q' := by
  unfold serveAt
  cases hget : q.get? i
  · exact ⟨q, rfl⟩
  · rename_i r
    obtain ⟨r', b, hserve⟩ := serve_request_total r t lookup
      (hq r (List.get?_mem hget))
    dsimp only
    rw [hserve]
    exact ⟨_, rfl⟩

/-! ## One dispatch call: relation and totality -/

/-- The pre-strategy part of a dispatch call applies only `serve_request`
steps to the queue and touches no other field than the two statistics
counters. -/
theorem preludeStep_rel {s s' : myServiceLine} {t : Nat}
    {lookup : Nat → Bool} {done : Bool}
    (h : preludeStep s t lookup = .ok (s', done)) :
    List.Forall₂ (ServedStep t lookup) s.queue s'.queue ∧
    s'.arrivals = s.arrivals ∧ s'.service_type = s.service_type ∧
    s'.max_nr_of_pending_requests = s.max_nr_of_pending_requests ∧
    s'.nr_of_times_empty_line = s.nr_of_times_empty_line ∧
    s'.concurrent_idx = s.concurrent_idx := by
  unfold preludeStep at h
  split at h
  · dsimp only at h
    split at h
    · split at h <;> rename_i hsp
      · simp at h
      · rename_i q' d
        simp only [Except.ok.injEq, Prod.mk.injEq] at h
        obtain ⟨h1, h2⟩ := h
        subst h1
        exact ⟨servePriority_rel hsp, by simp [dispatchStats], by
          simp [dispatchStats], by simp [dispatchStats], by
          simp [dispatchStats], by simp [dispatchStats]⟩
    · simp only [Except.ok.injEq, Prod.mk.injEq] at h
      obtain ⟨h1, h2⟩ := h
      subst h1
      exact ⟨forall₂_servedStep_refl _, by simp [dispatchStats], by
        simp [dispatchStats], by simp [dispatchStats], by
        simp [dispatchStats], by simp [dispatchStats]⟩
  · simp only [Except.ok.injEq, Prod.mk.injEq] at h
    obtain ⟨h1, h2⟩ := h
    subst h1
    exact ⟨forall₂_servedStep_refl _, rfl, rfl, rfl, rfl, rfl⟩

/-- If the pre-strategy part reports no work, the queue is unchanged. -/
theorem preludeStep_false {s s' : myServiceLine} {t : Nat}
    {lookup : Nat → Bool}
    (h : preludeStep s t lookup = .ok (s', false)) :
    s'.queue = s.queue := by
  unfold preludeStep at h
  split at h
  · dsimp only at h
    split at h
    · split at h <;> rename_i hsp
      · simp at h
      · rename_i q' d
        simp only [Except.ok.injEq, Prod.mk.injEq] at h
        obtain ⟨h1, h2⟩ := h
        subst h1
        subst h2
        simpa [dispatchStats] using servePriority_false hsp
    · simp only [Except.ok.injEq, Prod.mk.injEq] at h
      obtain ⟨h1, -⟩ := h
      subst h1
      simp [dispatchStats]
  · simp only [Except.ok.injEq, Prod.mk.injEq] at h
    obtain ⟨h1, -⟩ := h
    subst h1
    rfl

/-- The pre-strategy part cannot fail on a well-formed queue. -/
theorem preludeStep_total {s : myServiceLine} {t : Nat}
    {lookup : Nat → Bool} (hq : ∀ r ∈ s.queue, WellDep r) :
    ∃ s' done, preludeStep s t lookup = .ok (s', done) := by
  unfold preludeStep
  split
  · dsimp only
    split
    · obtain ⟨q', done, hsp⟩ :=
        @servePriority_total t lookup s.queue hq
      rw [show (dispatchStats s).queue = s.queue from rfl, hsp]
      exact ⟨_, _, rfl⟩
    · exact ⟨_, _, rfl⟩
  · exact ⟨_, _, rfl⟩

/-- The configured-strategy part applies only `serve_request` steps to
the queue, and never touches the arrival log, the strategy, the peak
counter or the two statistics counters. -/
theorem policyStep_rel {s s' : myServiceLine} {t : Nat}
    {lookup : Nat → Bool} {pick : Nat} {b : Bool}
    (h : policyStep s t lookup pick = .ok (s', b)) :
    List.Forall₂ (ServedStep t lookup) s.queue s'.queue ∧
    s'.arrivals = s.arrivals ∧ s'.service_type = s.service_type ∧
    s'.max_nr_of_pending_requests = s.max_nr_of_pending_requests ∧
    s'.accumulate_nr_of_active_requests =
      s.accumulate_nr_of_active_requests ∧
    s'.percentage_of_active_requests = s.percentage_of_active_requests := by
  unfold policyStep at h
  split at h
  · -- SEQUENTIAL
    split at h <;> rename_i hseq
    · simp at h
    · simp only [Except.ok.injEq, Prod.mk.injEq] at h
      obtain ⟨h1, -⟩ := h
      subst h1
      exact ⟨serveSequential_rel hseq, rfl, rfl, rfl, rfl, rfl⟩
    · simp only [Except.ok.injEq, Prod.mk.injEq] at h
      obtain ⟨h1, -⟩ := h
      subst h1
      exact ⟨serveSequential_rel hseq, rfl, rfl, rfl, rfl, rfl⟩
  · -- CONCURRENT
    split at h <;> rename_i hconc
    · simp at h
    · simp only [Except.ok.injEq, Prod.mk.injEq] at h
      obtain ⟨h1, -⟩ := h
      subst h1
      exact ⟨serveConcurrent_rel hconc, rfl, rfl, rfl, rfl, rfl⟩
    · simp only [Except.ok.injEq, Prod.mk.injEq] at h
      obtain ⟨h1, -⟩ := h
      subst h1
      exact ⟨serveConcurrent_rel hconc, rfl, rfl, rfl, rfl, rfl⟩
  · -- LOOKFORMAX
    split at h
    · simp only [Except.ok.injEq, Prod.mk.injEq] at h
      obtain ⟨h1, -⟩ := h
      subst h1
      exact ⟨forall₂_servedStep_refl _, rfl, rfl, rfl, rfl, rfl⟩
    · split at h <;> rename_i hat
      · simp at h
      · simp only [Except.ok.injEq, Prod.mk.injEq] at h
        obtain ⟨h1, -⟩ := h
        subst h1
        exact ⟨serveAt_rel hat, rfl, rfl, rfl, rfl, rfl⟩
  · -- LOOKFORMIN
    split at h
    · simp only [Except.ok.injEq, Prod.mk.injEq] at h
      obtain ⟨h1, -⟩ := h
      subst h1
      exact ⟨forall₂_servedStep_refl _, rfl, rfl, rfl, rfl, rfl⟩
    · split at h <;> rename_i hat
      · simp at h
      · simp only [Except.ok.injEq, Prod.mk.injEq] at h
        obtain ⟨h1, -⟩ := h
        subst h1
        exact ⟨serveAt_rel hat, rfl, rfl, rfl, rfl, rfl⟩
  · -- RANDOMCHOICE
    split at h
    · simp only [Except.ok.injEq, Prod.mk.injEq] at h
      obtain ⟨h1, -⟩ := h
      subst h1
      exact ⟨forall₂_servedStep_refl _, rfl, rfl, rfl, rfl, rfl⟩
    · split at h <;> rename_i hat
      · simp at h
      · simp only [Except.ok.injEq, Prod.mk.injEq] at h
        obtain ⟨h1, -⟩ := h
        subst h1
        exact ⟨serveAt_rel hat, rfl, rfl, rfl, rfl, rfl⟩

/-- The configured-strategy part cannot fail on a well-formed queue. -/
theorem policyStep_total {s : myServiceLine} {t : Nat}
    {lookup : Nat → Bool} {pick : Nat}
    (hq : ∀ r ∈ s.queue, WellDep r) :
    ∃ s' b, policyStep s t lookup pick = .ok (s', b) := by
  unfold policyStep
  split
  · obtain ⟨q', done, hseq⟩ :=
      @serveSequential_total t lookup _ hq
    rw [hseq]
    cases done
    · exact ⟨_, _, rfl⟩
    · exact ⟨_, _, rfl⟩
  · obtain ⟨q', res, hconc⟩ :=
      @serveConcurrent_total t lookup s.concurrent_idx _ hq
    rw [hconc]
    cases res
    · exact ⟨_, _, rfl⟩
    · exact ⟨_, _, rfl⟩
  · cases hscan : scanMax s.queue (-1) none 0
    · exact ⟨_, _, rfl⟩
    · rename_i i
      obtain ⟨q', hat⟩ := @serveAt_total t lookup _ i hq
      dsimp only
      rw [hat]
      exact ⟨_, _, rfl⟩
  · cases hscan : scanMin s.queue (3 * RANDOM_MAX_TIME_TO_SERVE_A_REQUEST)
        none 0
    · exact ⟨_, _, rfl⟩
    · rename_i i
      obtain ⟨q', hat⟩ := @serveAt_total t lookup _ i hq
      dsimp only
      rw [hat]
      exact ⟨_, _, rfl⟩
  · split
    · exact ⟨_, _, rfl⟩
    · obtain ⟨q', hat⟩ := @serveAt_total t lookup _ (pick % s.queue.length) hq
      rw [hat]
      exact ⟨_, _, rfl⟩

/-- A dispatch call applies only `serve_request` steps to the queue and
never touches the arrival log, the strategy or the peak counter. -/
theorem process_rel {s s' : myServiceLine} {t : Nat}
    {lookup : Nat → Bool} {pick : Nat} {b : Bool}
    (h : process_queued_requests s t lookup pick = .ok (s', b)) :
    List.Forall₂ (ServedStep t lookup) s.queue s'.queue ∧
    s'.arrivals = s.arrivals ∧ s'.service_type = s.service_type ∧
    s'.max_nr_of_pending_requests = s.max_nr_of_pending_requests := by
  unfold process_queued_requests at h
  split at h <;> rename_i hpre
  · simp at h
  · simp only [Except.ok.injEq, Prod.mk.injEq] at h
    obtain ⟨h1, -⟩ := h
    subst h1
    obtain ⟨hf, ha, ht, hm, -, -⟩ := preludeStep_rel hpre
    exact ⟨hf, ha, ht, hm⟩
  · rename_i s₁
    obtain ⟨-, ha₁, ht₁, hm₁, -, -⟩ := preludeStep_rel hpre
    have hq₁ := preludeStep_false hpre
    obtain ⟨hf₂, ha₂, ht₂, hm₂, -, -⟩ := policyStep_rel h
    exact ⟨hq₁ ▸ hf₂, ha₂.trans ha₁, ht₂.trans ht₁, hm₂.trans hm₁⟩

/-- A dispatch call cannot fail on a well-formed queue. -/
theorem process_total {s : myServiceLine} {t : Nat}
    {lookup : Nat → Bool} {pick : Nat}
    (hq : ∀ r ∈ s.queue, WellDep r) :
    ∃ s' b, process_queued_requests s t lookup pick = .ok (s', b) := by
  obtain ⟨s₁, done, hpre⟩ :=
    @preludeStep_total _ t lookup hq
  unfold process_queued_requests
  rw [hpre]
  cases done
  · have hq₁ : ∀ r ∈ s₁.queue, WellDep r := by
      rw [preludeStep_false hpre]
      exact hq
    obtain ⟨s', b, hpol⟩ :=
      @policyStep_total _ t lookup pick hq₁
    exact ⟨s', b, hpol⟩
  · exact ⟨_, _, rfl⟩

/-! ## The run invariant on requests -/

theorem GoodReq.wellDep {u : Nat} {r : myServiceRequest}
    (h : GoodReq u r) : WellDep r :=
  fun hw => (h.2.2.2.1 hw).2

theorem GoodReq.mono {u u' : Nat} {r : myServiceRequest}
    (h : GoodReq u r) (hu : u ≤ u') : GoodReq u' r := by
  obtain ⟨h1, h2, h3, h4, h5⟩ := h
  refine ⟨by omega, h2, fun ha => ?_, h4, h5⟩
  obtain ⟨g1, g2⟩ := h3 ha
  exact ⟨g1, by omega⟩

/-- One `serve_request` application at unit `u` preserves the invariant,
advancing it to unit `u+1`. -/
theorem GoodReq.serve {u : Nat} {r r' : myServiceRequest}
    {lookup : Nat → Bool} {b : Bool} (h : GoodReq u r)
    (hs : r.serve_request u lookup = .ok (r', b)) :
    GoodReq (u + 1) r' := by
  obtain ⟨h1, h2, h3, h4, h5⟩ := h
  unfold myServiceRequest.serve_request at hs
  cases hst : r.status <;> rw [hst] at hs <;> dsimp only at hs
  · -- ACTIVE
    obtain ⟨g1, g2⟩ := h3 hst
    split at hs <;> rename_i httl <;>
      simp only [Except.ok.injEq, Prod.mk.injEq] at hs <;>
      obtain ⟨e1, -⟩ := hs <;> subst e1
    · exact ⟨by simp; omega, h2, fun _ => ⟨by simp at httl ⊢; omega, by
        simp; omega⟩, by simp, by simp⟩
    · refine ⟨by simp; omega, h2, by simp, by simp, fun _ => ?_⟩
      simp only [gt_iff_lt, not_lt] at httl
      exact ⟨by simpa using httl, u, rfl, by simp; omega⟩
  · -- COMPLETION
    simp only [Except.ok.injEq, Prod.mk.injEq] at hs
    obtain ⟨e1, -⟩ := hs
    subst e1
    exact GoodReq.mono ⟨h1, h2, h3, h4, h5⟩ (Nat.le_succ u)
  · -- WAITING
    obtain ⟨g1, g2⟩ := h4 hst
    rw [if_neg g2] at hs
    split at hs <;> simp only [Except.ok.injEq, Prod.mk.injEq] at hs <;>
      obtain ⟨e1, -⟩ := hs <;> subst e1
    · exact ⟨by simp; omega, h2, fun _ => ⟨by simp; omega, by simp; omega⟩,
        by simp, by simp⟩
    · exact GoodReq.mono ⟨h1, h2, h3, h4, h5⟩ (Nat.le_succ u)

theorem GoodReq.step {u : Nat} {r r' : myServiceRequest}
    {lookup : Nat → Bool} (h : GoodReq u r)
    (hs : ServedStep u lookup r r') : GoodReq (u + 1) r' := by
  rcases hs with rfl | ⟨b, hs⟩
  · exact h.mono (Nat.le_succ u)
  · exact h.serve hs

theorem goodReq_of_forall₂ {u : Nat} {lookup : Nat → Bool}
    {q q' : List myServiceRequest}
    (hf : List.Forall₂ (ServedStep u lookup) q q')
    (hg : ∀ r ∈ q, GoodReq u r) :
    ∀ r' ∈ q', GoodReq (u + 1) r' := by
  induction hf with
  | nil => intro r' hr'; simp at hr'
  | cons hstep htail ih =>
    rename_i a b as bs
    intro r' hr'
    rcases List.mem_cons.1 hr' with rfl | hmem
    · exact ((hg a (List.mem_cons_self a as)).step hstep)
    · exact ih (fun r hr => hg r (List.mem_cons_of_mem a hr)) r' hmem

/-- A freshly created request satisfies the invariant for the next unit. -/
theorem goodReq_mkRequest (next_id u w : Nat) (p : Bool) (deps : List Nat) :
    GoodReq (u + 1) (mkRequest next_id u w p deps) := by
  unfold mkRequest GoodReq
  by_cases hd : deps = [] <;> simp [hd] <;> omega

/-- `insert_new_incoming_request` at unit `u` preserves the invariant,
advancing it to unit `u+1`. -/
theorem goodQueue_insert {s : myServiceLine} {next_id u w : Nat}
    {p : Bool} {deps : List Nat} (hg : GoodQueue u s) :
    GoodQueue (u + 1)
      (insert_new_incoming_request s next_id u w p deps).1 := by
  intro r hr
  unfold insert_new_incoming_request at hr
  simp only [List.mem_append, List.mem_singleton] at hr
  rcases hr with hmem | rfl
  · exact (hg r hmem).mono (Nat.le_succ u)
  · exact goodReq_mkRequest next_id u w p deps

/-- A dispatch call at unit `u` on a queue satisfying the invariant
succeeds and preserves the invariant, advancing it to unit `u+1`. -/
theorem goodQueue_process {s : myServiceLine} {u : Nat}
    {lookup : Nat → Bool} {pick : Nat} (hg : GoodQueue u s) :
    ∃ s' b, process_queued_requests s u lookup pick = .ok (s', b) ∧
      GoodQueue (u + 1) s' := by
  obtain ⟨s', b, hok⟩ := @process_total _ u lookup pick (fun r hr => (hg r hr).wellDep)
  exact ⟨s', b, hok, goodReq_of_forall₂ (process_rel hok).1 hg⟩

/-! ## Run-level invariants -/

/-- One time unit of the single-line run succeeds on a queue satisfying
the invariant and preserves it. -/
theorem lineUnit_good {o : Oracle} {arr : List LogEntry}
    {s : myServiceLine} {nid u : Nat} (hg : GoodQueue u s) :
    ∃ s' nid', lineUnit o arr (s, nid) u = .ok (s', nid') ∧
      GoodQueue (u + 1) s' := by
  unfold lineUnit
  dsimp only
  split
  · split
    · exact ⟨_, _, rfl, goodQueue_insert hg⟩
    · obtain ⟨s', b, hok, hg'⟩ := @goodQueue_process _ _ (fun _ => false) (o.pick u) hg
      rw [hok]
      exact ⟨_, _, rfl, hg'⟩
  · split
    · obtain ⟨s', b, hok, hg'⟩ := @goodQueue_process _ _ (fun _ => false) (o.pick u) hg
      rw [hok]
      exact ⟨_, _, rfl, hg'⟩
    · exact ⟨_, _, rfl, goodQueue_insert hg⟩

/-- Any number of consecutive time units of the single-line run succeeds
on a queue satisfying the invariant and preserves it. -/
theorem lineUnits_good {o : Oracle} {arr : List LogEntry} :
    ∀ {count start : Nat} {s : myServiceLine} {nid : Nat},
    GoodQueue start s →
    ∃ s' nid', lineUnits o arr start count (s, nid) = .ok (s', nid') ∧
      GoodQueue (start + count) s' := by
  intro count
  induction count with
  | zero => exact fun hg => ⟨_, _, rfl, hg⟩
  | succ k ih =>
    intro start s nid hg
    obtain ⟨s₁, nid₁, hok₁, hg₁⟩ := @lineUnit_good o arr _ nid _ hg
    obtain ⟨s', nid', hok', hg'⟩ := @ih (start + 1) _ nid₁ hg₁
    refine ⟨s', nid', ?_, ?_⟩
    · unfold lineUnits
      rw [hok₁]
      exact hok'
    · have : start + 1 + k = start + (k + 1) := by omega
      rwa [this] at hg'

/-- Inserting one sub-request into every collaborator preserves the
invariant. -/
theorem insertSubRequests_good {u share : Nat} {p : Bool} :
    ∀ {cs : List myServiceLine} {nid : Nat},
    (∀ c ∈ cs, GoodQueue u c) →
    ∀ c' ∈ (insertSubRequests u share p cs nid).1, GoodQueue (u + 1) c' := by
  intro cs
  induction cs with
  | nil => intro nid hg c' hc'; simp [insertSubRequests] at hc'
  | cons c cs ih =>
    intro nid hg c' hc'
    unfold insertSubRequests at hc'
    simp only at hc'
    rcases List.mem_cons.1 hc' with rfl | hmem
    · exact goodQueue_insert (hg c (List.mem_cons_self c cs))
    · exact ih (fun x hx => hg x (List.mem_cons_of_mem c hx)) _ hmem

/-- The decomposition step preserves the invariant. -/
theorem hierDecompose_good {h : myServiceLineHierarchy} {nid u w : Nat}
    {p : Bool} (hg : GoodHier u h) :
    GoodHier (u + 1) (hierDecompose h nid u w p).1 := by
  obtain ⟨hc, hcs⟩ := hg
  unfold hierDecompose
  constructor
  · exact goodQueue_insert hc
  · exact fun c hcmem => insertSubRequests_good hcs c hcmem

/-- Serving all collaborator queues succeeds and preserves the
invariant. -/
theorem processCollaborators_good {o : Oracle} {u : Nat} :
    ∀ {cs : List myServiceLine} {pb : Nat}, (∀ c ∈ cs, GoodQueue u c) →
    ∃ cs', processCollaborators o u pb cs = .ok cs' ∧
      ∀ c' ∈ cs', GoodQueue (u + 1) c' := by
  intro cs
  induction cs with
  | nil => exact fun _ => ⟨[], rfl, by simp⟩
  | cons c cs ih =>
    intro pb hg
    obtain ⟨c', b, hok, hg'⟩ := @goodQueue_process _ _ (fun _ => false) (o.pick pb)
      (hg c (List.mem_cons_self c cs))
    obtain ⟨cs', hoks, hgs⟩ := @ih (pb + 1)
      (fun x hx => hg x (List.mem_cons_of_mem c hx))
    refine ⟨c' :: cs', ?_, ?_⟩
    · unfold processCollaborators
      rw [hok, hoks]
    · intro x hx
      rcases List.mem_cons.1 hx with rfl | hmem
      · exact hg'
      · exact hgs x hmem

/-- One hierarchy time unit succeeds on a well-formed hierarchy and
preserves the invariant. -/
theorem hierUnit_good {o : Oracle} {arr : List LogEntry}
    {h : myServiceLineHierarchy} {nid u : Nat} (hg : GoodHier u h) :
    ∃ h' nid', hierUnit o arr (h, nid) u = .ok (h', nid') ∧
      GoodHier (u + 1) h' := by
  obtain ⟨hc, hcs⟩ := hg
  have dispatchAllGood : ∀ pb pk,
      ∃ h' nid', (match process_queued_requests h.chief u
          (depCompleted h.list_of_collaborators) pk with
        | Except.error e => Except.error e
        | Except.ok (chief', _) =>
          match processCollaborators o u pb h.list_of_collaborators with
          | Except.error e => Except.error e
          | Except.ok cs' =>
            Except.ok (({ chief := chief', list_of_collaborators := cs' } :
              myServiceLineHierarchy), nid)) = Except.ok (h', nid') ∧
        GoodHier (u + 1) h' := by
    intro pb pk
    obtain ⟨chief', b, hok, hg'⟩ := @goodQueue_process _ _ (depCompleted h.list_of_collaborators) pk hc
    obtain ⟨cs', hoks, hgs⟩ := @processCollaborators_good o _ _ pb hcs
    rw [hok, hoks]
    exact ⟨_, _, rfl, hg', hgs⟩
  unfold hierUnit
  dsimp only
  split
  · split
    · split
      · exact ⟨_, _, rfl, hierDecompose_good ⟨hc, hcs⟩⟩
      · exact ⟨_, _, rfl, goodQueue_insert hc, fun c hcm r hr =>
          (hcs c hcm r hr).mono (Nat.le_succ u)⟩
    · exact dispatchAllGood _ _
  · split
    · exact dispatchAllGood _ _
    · split
      · refine ⟨_, _, rfl, ?_, ?_⟩
        · exact goodQueue_insert hc
        · exact fun c hcm => insertSubRequests_good hcs c hcm
      · exact ⟨_, _, rfl, goodQueue_insert hc, fun c hcm r hr =>
          (hcs c hcm r hr).mono (Nat.le_succ u)⟩

/-- Any number of consecutive hierarchy time units succeeds on a
well-formed hierarchy and preserves the invariant. -/
theorem hierUnits_good {o : Oracle} {arr : List LogEntry} :
    ∀ {count start : Nat} {h : myServiceLineHierarchy} {nid : Nat},
    GoodHier start h →
    ∃ h' nid', hierUnits o arr start count (h, nid) = .ok (h', nid') ∧
      GoodHier (start + count) h' := by
  intro count
  induction count with
  | zero => exact fun hg => ⟨_, _, rfl, hg⟩
  | succ k ih =>
    intro start h nid hg
    obtain ⟨h₁, nid₁, hok₁, hg₁⟩ := @hierUnit_good o arr _ nid _ hg
    obtain ⟨h', nid', hok', hg'⟩ := @ih (start + 1) _ nid₁ hg₁
    refine ⟨h', nid', ?_, ?_⟩
    · unfold hierUnits
      rw [hok₁]
      exact hok'
    · have : start + 1 + k = start + (k + 1) := by omega
      rwa [this] at hg'

/-! ## Performance-vector facts -/

/-- A completed request satisfying the invariant has non-negative extra
duration. -/
theorem extraDuration_nonneg_of_goodReq {u : Nat} {r : myServiceRequest}
    (hg : GoodReq u r) (hc : r.status = REQUEST_COMPLETION) :
    0 ≤ extraDuration r := by
  obtain ⟨-, -, -, -, h5⟩ := hg
  obtain ⟨-, c, hee, hnn⟩ := h5 hc
  unfold extraDuration
  rw [hee]
  exact hnn

/-- `perfOf` fails exactly on a queue with no completed request, and the
only error it can report is the empty-result one. -/
theorem perfOf_error_iff (s : myServiceLine) :
    (∀ e, perfOf s = .error e → e = .noCompleted) ∧
    (perfOf s = .error .noCompleted ↔ completedOf s.queue = []) ∧
    (completedOf s.queue ≠ [] → ∃ v, perfOf s = .ok v) := by
  unfold perfOf
  dsimp only
  by_cases hd : (completedOf s.queue).map extraDuration = []
  · rw [if_pos hd]
    refine ⟨?_, ?_, ?_⟩
    · intro e he
      injection he with h
      exact h.symm
    · exact ⟨fun _ => List.map_eq_nil_iff.mp hd, fun _ => rfl⟩
    · exact fun hne => absurd (List.map_eq_nil_iff.mp hd) hne
  · rw [if_neg hd]
    refine ⟨?_, ?_, ?_⟩
    · intro e he
      simp at he
    · constructor
      · intro he
        simp at he
      · intro hc
        exact absurd (by rw [hc]; rfl :
          (completedOf s.queue).map extraDuration = []) hd
    · exact fun _ => ⟨_, rfl⟩

/-- If every completed request of the final queue has non-negative extra
duration, the first performance parameter is non-negative. -/
theorem perfOf_nonneg {s : myServiceLine} {v : PerfVector}
    (hall : ∀ r ∈ completedOf s.queue, 0 ≤ extraDuration r)
    (hok : perfOf s = .ok v) : 0 ≤ v.average_extra_duration.toRat := by
  unfold perfOf at hok
  dsimp only at hok
  split at hok
  · simp at hok
  · simp only [Except.ok.injEq] at hok
    subst hok
    dsimp only [Frac.toRat]
    apply div_nonneg
    · have hsum : 0 ≤ ((completedOf s.queue).map extraDuration).sum := by
        apply List.sum_nonneg
        intro x hx
        obtain ⟨r, hr, rfl⟩ := List.mem_map.1 hx
        exact hall r hr
      exact_mod_cast hsum
    · positivity

/-- C3: in every run of `myServiceLine.run` or
`myServiceLineHierarchy.run` in which every admitted workload is strictly
positive, every request that is Completed at the end of the run satisfies
`time_of_completion - time_to_start - minimum_duration ≥ 0`, and the
first component of the performance vector (the mean of these differences)
is never negative. -/
theorem C3_completed_extra_nonneg (line_type chief_type coll_type :
    ServiceType) (ncol : Nat) (arr : List LogEntry) (o : Oracle)
    (next_id : Nat) (hw : ∀ e ∈ arr, 1 ≤ e.2.1) :
    (∀ sf nidf, lineUnits o arr 0 TOTAL_NR_OF_TIME_UNITS
        (mkLine line_type, next_id) = .ok (sf, nidf) →
      ∀ r ∈ completedOf sf.queue, 0 ≤ extraDuration r) ∧
    (∀ v, lineRun line_type arr o next_id = .ok v →
      0 ≤ v.average_extra_duration.toRat) ∧
    (∀ hf nidf, hierUnits o arr 0 TOTAL_NR_OF_TIME_UNITS
        (mkHierarchy chief_type ncol coll_type, next_id) = .ok (hf, nidf) →
      ∀ r ∈ completedOf hf.chief.queue, 0 ≤ extraDuration r) ∧
    (∀ v, hierRun chief_type ncol coll_type arr o next_id = .ok v →
      0 ≤ v.average_extra_duration.toRat) := by
  have hline0 : GoodQueue 0 (mkLine line_type) := by
    intro r hr
    simp [mkLine] at hr
  have hhier0 : GoodHier 0 (mkHierarchy chief_type ncol coll_type) := by
    refine ⟨fun r hr => by simp [mkHierarchy, mkLine] at hr, ?_⟩
    intro c hc r hr
    rw [List.eq_of_mem_replicate hc] at hr
    simp [mkLine] at hr
  obtain ⟨sf₀, nidf₀, hok₀, hg₀⟩ := @lineUnits_good o arr TOTAL_NR_OF_TIME_UNITS 0 _ next_id hline0
  obtain ⟨hf₀, hnidf₀, hhok₀, hhg₀⟩ := @hierUnits_good o arr TOTAL_NR_OF_TIME_UNITS 0 _ next_id hhier0
  have hallLine : ∀ sf nidf, lineUnits o arr 0 TOTAL_NR_OF_TIME_UNITS
      (mkLine line_type, next_id) = .ok (sf, nidf) →
      ∀ r ∈ completedOf sf.queue, 0 ≤ extraDuration r := by
    intro sf nidf hok r hr
    rw [hok] at hok₀
    simp only [Except.ok.injEq, Prod.mk.injEq] at hok₀
    obtain ⟨rfl, -⟩ := hok₀
    obtain ⟨hmem, hdec⟩ := List.mem_filter.1 hr
    exact extraDuration_nonneg_of_goodReq (hg₀ r hmem)
      (of_decide_eq_true hdec)
  have hallHier : ∀ hf nidf, hierUnits o arr 0 TOTAL_NR_OF_TIME_UNITS
      (mkHierarchy chief_type ncol coll_type, next_id) = .ok (hf, nidf) →
      ∀ r ∈ completedOf hf.chief.queue, 0 ≤ extraDuration r := by
    intro hf nidf hok r hr
    rw [hok] at hhok₀
    simp only [Except.ok.injEq, Prod.mk.injEq] at hhok₀
    obtain ⟨rfl, -⟩ := hhok₀
    obtain ⟨hmem, hdec⟩ := List.mem_filter.1 hr
    exact extraDuration_nonneg_of_goodReq (hhg₀.1 r hmem)
      (of_decide_eq_true hdec)
  refine ⟨hallLine, ?_, hallHier, ?_⟩
  · intro v hv
    unfold lineRun at hv
    rw [hok₀] at hv
    exact perfOf_nonneg (hallLine sf₀ nidf₀ hok₀) hv
  · intro v hv
    unfold hierRun at hv
    rw [hhok₀] at hv
    exact perfOf_nonneg (hallHier hf₀ hnidf₀ hhok₀) hv

/-! ## Stepping and composition of run segments -/

theorem lineUnits_succ (o : Oracle) (arr : List LogEntry) (start count : Nat)
    (st : myServiceLine × Nat) :
    lineUnits o arr start (count + 1) st =
      match lineUnit o arr st start with
      | .error e => .error e
      | .ok st' => lineUnits o arr (start + 1) count st' := rfl

/-- Splitting a run of `a + b` units into a run of `a` then a run of `b`. -/
theorem lineUnits_add (o : Oracle) (arr : List LogEntry) :
    ∀ (a start b : Nat) (st : myServiceLine × Nat),
    lineUnits o arr start (a + b) st =
      match lineUnits o arr start a st with
      | .error e => .error e
      | .ok st' => lineUnits o arr (start + a) b st' := by
  intro a
  induction a with
  | zero => intro start b st; simp [lineUnits, Nat.add_zero]
  | succ k ih =>
    intro start b st
    have h1 : k + 1 + b = (k + b) + 1 := by omega
    rw [h1, lineUnits_succ, lineUnits_succ]
    cases h : lineUnit o arr st start
    · rfl
    · rename_i st₁
      dsimp only
      rw [ih (start + 1) b st₁]
      have h2 : start + (k + 1) = start + 1 + k := by omega
      rw [h2]

theorem hierUnits_succ (o : Oracle) (arr : List LogEntry) (start count : Nat)
    (st : myServiceLineHierarchy × Nat) :
    hierUnits o arr start (count + 1) st =
      match hierUnit o arr st start with
      | .error e => .error e
      | .ok st' => hierUnits o arr (start + 1) count st' := rfl

/-- Splitting a hierarchy run of `a + b` units. -/
theorem hierUnits_add (o : Oracle) (arr : List LogEntry) :
    ∀ (a start b : Nat) (st : myServiceLineHierarchy × Nat),
    hierUnits o arr start (a + b) st =
      match hierUnits o arr start a st with
      | .error e => .error e
      | .ok st' => hierUnits o arr (start + a) b st' := by
  intro a
  induction a with
  | zero => intro start b st; simp [hierUnits, Nat.add_zero]
  | succ k ih =>
    intro start b st
    have h1 : k + 1 + b = (k + b) + 1 := by omega
    rw [h1, hierUnits_succ, hierUnits_succ]
    cases h : hierUnit o arr st start
    · rfl
    · rename_i st₁
      dsimp only
      rw [ih (start + 1) b st₁]
      have h2 : start + (k + 1) = start + 1 + k := by omega
      rw [h2]

/-! ## Claim C2: `serve_request` on a Waiting request -/

/-- C2: advancing a Waiting request fails fatally when its dependency
set is empty; returns `false` leaving the request untouched when some
dependency is not completed; and transitions it to Active returning
`true` without touching its remaining workload when all dependencies are
completed. -/
theorem C2_serve_request_waiting (r : myServiceRequest) (t : Nat)
    (lookup : Nat → Bool) (hw : r.status = WAITING_REQUEST) :
    (r.list_of_requests_it_is_waiting_for = [] →
      r.serve_request t lookup = .error .badWaiting) ∧
    (r.list_of_requests_it_is_waiting_for ≠ [] →
      ((∃ d ∈ r.list_of_requests_it_is_waiting_for, lookup d = false) →
        r.serve_request t lookup = .ok (r, false)) ∧
      ((∀ d ∈ r.list_of_requests_it_is_waiting_for, lookup d = true) →
        r.serve_request t lookup =
          .ok ({ r with status := ACTIVE_REQUEST }, true))) := by
  unfold myServiceRequest.serve_request
  rw [hw]
  dsimp only
  constructor
  · intro hd
    rw [if_pos hd]
  · intro hd
    constructor
    · intro hblocked
      obtain ⟨d, hdm, hdf⟩ := hblocked
      rw [if_neg hd, if_neg]
      simp only [List.all_eq_true, not_forall]
      exact ⟨d, hdm, by simp [hdf]⟩
    · intro hall
      rw [if_neg hd, if_pos (List.all_eq_true.mpr hall)]

/-! ## Claim C4: hierarchical decomposition -/

/-- `insert_new_incoming_request` written out: the appended request, the
updated peak counter and log, and the incremented identifier counter. -/
theorem insert_parts (self : myServiceLine) (next_id t w : Nat) (p : Bool)
    (deps : List Nat) :
    insert_new_incoming_request self next_id t w p deps =
      ({ self with
          queue := self.queue ++ [mkRequest next_id t w p deps]
          max_nr_of_pending_requests :=
            if activeCount (self.queue ++ [mkRequest next_id t w p deps]) >
                self.max_nr_of_pending_requests then
              activeCount (self.queue ++ [mkRequest next_id t w p deps])
            else self.max_nr_of_pending_requests
          arrivals := self.arrivals ++ [(t, w, p, decide (deps ≠ []))] },
        mkRequest next_id t w p deps, next_id + 1) := rfl

/-- Closed form of the collaborator fan-out loop: collaborator `i`
receives exactly one sub-request with identifier `nid + i`, and the
returned identifier list is exactly `[nid, …, nid + n - 1]`. -/
theorem insertSubRequests_eq (t share : Nat) (p : Bool) :
    ∀ (cs : List myServiceLine) (nid : Nat),
    insertSubRequests t share p cs nid =
      (List.zipWith (fun c k =>
          (insert_new_incoming_request c k t share p []).1)
        cs (List.range' nid cs.length),
       List.range' nid cs.length, nid + cs.length) := by
  intro cs
  induction cs with
  | nil => intro nid; rfl
  | cons c cs ih =>
    intro nid
    rw [show (c :: cs).length = cs.length + 1 from rfl,
      List.range'_succ nid cs.length 1]
    unfold insertSubRequests
    rw [insert_parts]
    dsimp only
    rw [ih (nid + 1)]
    dsimp only
    simp only [List.zipWith, Prod.mk.injEq]
    exact ⟨rfl, rfl, by omega⟩

/-- C4: on a generated arrival that decomposes, the per-collaborator
share is `⌊w / (n + 1)⌋ + 1` and strictly positive; exactly one
sub-request of that share is admitted into every one of the `n`
collaborator lines at the current unit (the one of collaborator `i`
carrying identifier `nid + i`); and the delegating request admitted into
the chief line at the same unit has that same share as workload and
exactly those `n` sub-request identifiers as its dependency list. -/
theorem C4_hierarchy_decompose (h : myServiceLineHierarchy)
    (nid t w : Nat) (p : Bool) :
    0 < w / (h.list_of_collaborators.length + 1) + 1 ∧
    (hierDecompose h nid t w p).1.chief.queue =
      h.chief.queue ++
        [mkRequest (nid + h.list_of_collaborators.length) t
          (w / (h.list_of_collaborators.length + 1) + 1) p
          (List.range' nid h.list_of_collaborators.length)] ∧
    (List.range' nid h.list_of_collaborators.length).length =
      h.list_of_collaborators.length ∧
    (hierDecompose h nid t w p).1.list_of_collaborators =
      List.zipWith (fun c k =>
          (insert_new_incoming_request c k t
            (w / (h.list_of_collaborators.length + 1) + 1) p []).1)
        h.list_of_collaborators
        (List.range' nid h.list_of_collaborators.length) ∧
    (hierDecompose h nid t w p).2 =
      nid + h.list_of_collaborators.length + 1 := by
  unfold hierDecompose
  dsimp only
  rw [insertSubRequests_eq]
  dsimp only
  rw [insert_parts]
  refine ⟨Nat.succ_pos _, ?_, by simp, rfl, by dsimp only⟩
  simp

/-! ## Claim C1: priority pre-emption -/

/-- An Active request always reports work done when served. -/
theorem serve_request_active_true {r : myServiceRequest} {t : Nat}
    {lookup : Nat → Bool} (ha : r.status = ACTIVE_REQUEST) :
    ∃ r', r.serve_request t lookup = .ok (r', true) := by
  unfold myServiceRequest.serve_request
  rw [ha]
  dsimp only
  split
  · exact ⟨_, rfl⟩
  · exact ⟨_, rfl⟩

/-- The priority scan advances exactly the first priority-flagged
request whose advance reports work done. -/
theorem servePriority_first {t : Nat} {lookup : Nat → Bool}
    {r r' : myServiceRequest} {q₂ : List myServiceRequest} :
    ∀ {q₁ : List myServiceRequest}, (∀ x ∈ q₁, x.priority = false) →
    r.priority = true → r.serve_request t lookup = .ok (r', true) →
    servePriority t lookup (q₁ ++ r :: q₂) = .ok (q₁ ++ r' :: q₂, true) := by
  intro q₁
  induction q₁ with
  | nil =>
    intro _ hp hserve
    rw [List.nil_append, List.nil_append]
    unfold servePriority
    rw [if_pos hp, hserve]
  | cons x xs ih =>
    intro hnp hp hserve
    rw [List.cons_append, List.cons_append]
    unfold servePriority
    rw [if_neg (by simp [hnp x (List.mem_cons_self x xs)]),
      ih (fun y hy => hnp y (List.mem_cons_of_mem x hy)) hp hserve]

/-- With a priority-flagged Active request somewhere in a well-formed
queue, the priority scan reports work done. -/
theorem servePriority_active {t : Nat} {lookup : Nat → Bool} :
    ∀ {q : List myServiceRequest}, (∀ r ∈ q, WellDep r) →
    (∃ r ∈ q, r.priority = true ∧ r.status = ACTIVE_REQUEST) →
    ∃ q', servePriority t lookup q = .ok (q', true) := by
  intro q
  induction q with
  | nil => intro _ hp; simp at hp
  | cons r rs ih =>
    intro hwd hp
    unfold servePriority
    by_cases hpr : r.priority = true
    · rw [if_pos hpr]
      obtain ⟨r', b, hserve⟩ := serve_request_total r t lookup
        (hwd r (List.mem_cons_self r rs))
      cases b
      · have hr' : r' = r := serve_request_false hserve
        rw [hr'] at hserve
        obtain ⟨w, hw, hwp, hwa⟩ := hp
        have hwrs : w ∈ rs := by
          rcases List.mem_cons.1 hw with rfl | hm
          · obtain ⟨x, hx⟩ := @serve_request_active_true _ t lookup hwa
            rw [hx] at hserve
            simp at hserve
          · exact hm
        obtain ⟨rs', hrec⟩ := ih
          (fun x hx => hwd x (List.mem_cons_of_mem r hx))
          ⟨w, hwrs, hwp, hwa⟩
        rw [hserve, hrec]
        exact ⟨_, rfl⟩
      · rw [hserve]
        exact ⟨_, rfl⟩
    · rw [if_neg hpr]
      obtain ⟨w, hw, hwp, hwa⟩ := hp
      have hwrs : w ∈ rs := by
        rcases List.mem_cons.1 hw with rfl | hm
        · exact absurd hwp hpr
        · exact hm
      obtain ⟨rs', hrec⟩ := ih
        (fun x hx => hwd x (List.mem_cons_of_mem r hx))
        ⟨w, hwrs, hwp, hwa⟩
      rw [hrec]
      exact ⟨_, rfl⟩

/-- A successful priority scan implies a priority-flagged request is
present. -/
theorem servePriority_true_has_priority {t : Nat} {lookup : Nat → Bool} :
    ∀ {q q' : List myServiceRequest},
    servePriority t lookup q = .ok (q', true) →
    ∃ r ∈ q, r.priority = true := by
  intro q
  induction q with
  | nil => intro q' h; simp [servePriority] at h
  | cons r rs ih =>
    intro q' h
    unfold servePriority at h
    split at h <;> rename_i hpr
    · exact ⟨r, List.mem_cons_self r rs, hpr⟩
    · split at h <;> rename_i hrec
      · simp at h
      · rename_i rs' done
        simp only [Except.ok.injEq, Prod.mk.injEq] at h
        obtain ⟨-, h2⟩ := h
        subst h2
        obtain ⟨w, hw, hwp⟩ := ih hrec
        exact ⟨w, List.mem_cons_of_mem r hw, hwp⟩

/-- A dispatch call whose priority scan reports work done returns `true`
with the scanned queue and the statistics update, independently of the
configured policy. -/
theorem process_of_priority_true {s : myServiceLine} {t : Nat}
    {lookup : Nat → Bool} {pick : Nat} {q' : List myServiceRequest}
    (h : servePriority t lookup s.queue = .ok (q', true)) :
    process_queued_requests s t lookup pick =
      .ok ({ dispatchStats s with queue := q' }, true) := by
  have hne : s.queue ≠ [] := by
    intro he
    rw [he] at h
    simp [servePriority] at h
  obtain ⟨r, hr, hpr⟩ := servePriority_true_has_priority h
  unfold process_queued_requests preludeStep
  rw [if_pos (List.length_pos.2 hne)]
  dsimp only
  have hpp : (List.filter (fun r => r.priority)
      (dispatchStats s).queue).length > 0 := by
    have hmem : r ∈ List.filter (fun r => r.priority)
        (dispatchStats s).queue := List.mem_filter.2 ⟨hr, hpr⟩
    exact List.length_pos.2 (List.ne_nil_of_mem hmem)
  rw [if_pos hpp, show (dispatchStats s).queue = s.queue from rfl, h]

/-- C1: a Dispatch call scans the queue in insertion order for
priority-flagged requests; the first such request whose advance reports
work done is the one advanced, and the call returns `true` immediately,
identically for every configured policy; in particular this happens
whenever some priority-flagged Active request is queued. -/
theorem C1_priority_preemption (s : myServiceLine) (t : Nat)
    (lookup : Nat → Bool) (pick : Nat)
    (hwd : ∀ r ∈ s.queue, WellDep r) :
    (∀ q₁ r r' q₂, s.queue = q₁ ++ r :: q₂ →
      (∀ x ∈ q₁, x.priority = false) → r.priority = true →
      r.serve_request t lookup = .ok (r', true) →
      ∀ pol, process_queued_requests { s with service_type := pol } t
          lookup pick =
        .ok ({ dispatchStats { s with service_type := pol } with
                queue := q₁ ++ r' :: q₂ }, true)) ∧
    ((∃ r ∈ s.queue, r.priority = true ∧ r.status = ACTIVE_REQUEST) →
      ∃ q', servePriority t lookup s.queue = .ok (q', true) ∧
        ∀ pol, process_queued_requests { s with service_type := pol } t
            lookup pick =
          .ok ({ dispatchStats { s with service_type := pol } with
                  queue := q' }, true)) := by
  constructor
  · intro q₁ r r' q₂ hsplit hnp hpr hserve pol
    exact process_of_priority_true (s := { s with service_type := pol })
      (by rw [show ({ s with service_type := pol } :
            myServiceLine).queue = s.queue from rfl, hsplit]
          exact servePriority_first hnp hpr hserve)
  · intro hp
    obtain ⟨q', hq'⟩ := servePriority_active hwd hp
    exact ⟨q', hq', fun pol =>
      process_of_priority_true (s := { s with service_type := pol }) hq'⟩

/-! ## Claims C6 and C7: the LookForMin scan -/

/-- Full characterization of the running-minimum scan: either no element
beats the running minimum and the accumulated best is returned, or the
scan returns the index of an element strictly below the running minimum
that is a minimum of the whole list. -/
theorem scanMin_spec : ∀ (q : List myServiceRequest) (mw : Int)
    (best : Option Nat) (i : Nat),
    (scanMin q mw best i = best ∧ ∀ x ∈ q, mw ≤ x.time_to_live) ∨
    (∃ j r, scanMin q mw best i = some j ∧ i ≤ j ∧
      q.get? (j - i) = some r ∧ r.time_to_live < mw ∧
      ∀ x ∈ q, r.time_to_live ≤ x.time_to_live) := by
  intro q
  induction q with
  | nil => intro mw best i; exact Or.inl ⟨rfl, by simp⟩
  | cons x xs ih =>
    intro mw best i
    unfold scanMin
    by_cases hx : x.time_to_live < mw
    · rw [if_pos hx]
      rcases ih x.time_to_live (some i) (i + 1) with ⟨hres, hall⟩ |
        ⟨j, r, hres, hij, hget, hlt, hall⟩
      · refine Or.inr ⟨i, x, hres, le_refl i, ?_, hx, ?_⟩
        · simp
        · intro y hy
          rcases List.mem_cons.1 hy with rfl | hm
          · exact le_refl _
          · exact hall y hm
      · refine Or.inr ⟨j, r, hres, by omega, ?_, lt_trans hlt hx, ?_⟩
        · have : j - i = (j - (i + 1)) + 1 := by omega
          rw [this]
          simpa using hget
        · intro y hy
          rcases List.mem_cons.1 hy with rfl | hm
          · exact le_of_lt hlt
          · exact hall y hm
    · rw [if_neg hx]
      rcases ih mw best (i + 1) with ⟨hres, hall⟩ |
        ⟨j, r, hres, hij, hget, hlt, hall⟩
      · refine Or.inl ⟨hres, ?_⟩
        intro y hy
        rcases List.mem_cons.1 hy with rfl | hm
        · omega
        · exact hall y hm
      · refine Or.inr ⟨j, r, hres, by omega, ?_, hlt, ?_⟩
        · have : j - i = (j - (i + 1)) + 1 := by omega
          rw [this]
          simpa using hget
        · intro y hy
          rcases List.mem_cons.1 hy with rfl | hm
          · omega
          · exact hall y hm

/-- Setting a list element to its current value is the identity. -/
theorem list_set_get_self {r : myServiceRequest} :
    ∀ (q : List myServiceRequest) (i : Nat), q.get? i = some r →
    q.set i r = q := by
  intro q
  induction q with
  | nil => intro i h; simp at h
  | cons x xs ih =>
    intro i h
    cases i with
    | zero =>
      simp only [List.get?] at h
      cases h
      rfl
    | succ j =>
      simp only [List.get?] at h
      simp [ih j h]

/-- A Completed request is a no-op for `serve_request`. -/
theorem serve_request_completed {r : myServiceRequest} {t : Nat}
    {lookup : Nat → Bool} (hc : r.status = REQUEST_COMPLETION) :
    r.serve_request t lookup = .ok (r, false) := by
  unfold myServiceRequest.serve_request
  rw [hc]

/-- The LookForMin branch of `policyStep`, as an equation usable for
rewriting. -/
theorem policyStep_lookformin {s : myServiceLine} {t : Nat}
    {lookup : Nat → Bool} {pick : Nat}
    (hmin : s.service_type = LOOKFORMIN) :
    policyStep s t lookup pick =
      match scanMin s.queue (3 * RANDOM_MAX_TIME_TO_SERVE_A_REQUEST)
          none 0 with
      | none =>
        .ok ({ s with
                nr_of_times_empty_line := s.nr_of_times_empty_line + 1 },
             false)
      | some i =>
        match serveAt t lookup s.queue i with
        | .error e => .error e
        | .ok q' => .ok ({ s with queue := q' }, true) := by
  unfold policyStep
  split <;> rename_i hty <;> rw [hty] at hmin <;> simp_all

/-- C6: the LookForMin search starts from the sentinel
`3 * RANDOM_MAX_TIME_TO_SERVE_A_REQUEST`, which is strictly above every
workload the program enqueues (drawn workloads are at most
`RANDOM_MAX_TIME_TO_SERVE_A_REQUEST`; replayed single-line workloads are
at most `(NR_OF_COLLABORATORS+1)` times a delegated share); hence on a
non-empty queue of such requests some real request replaces the sentinel
and the first request of numerically smallest remaining workload is
selected and advanced with the call reporting work done, while the
empty-tick counter is incremented (and `false` returned) only on an empty
queue. -/
theorem C6_lookformin_selects_min (s : myServiceLine) (t : Nat)
    (lookup : Nat → Bool) (pick : Nat)
    (hmin : s.service_type = LOOKFORMIN)
    (hbound : ∀ r ∈ s.queue,
      r.time_to_live < 3 * RANDOM_MAX_TIME_TO_SERVE_A_REQUEST)
    (hwd : ∀ r ∈ s.queue, WellDep r) :
    (∀ w : Nat, w ≤ RANDOM_MAX_TIME_TO_SERVE_A_REQUEST →
      w < 3 * RANDOM_MAX_TIME_TO_SERVE_A_REQUEST ∧
      (NR_OF_COLLABORATORS + 1) * (w / (NR_OF_COLLABORATORS + 1) + 1) <
        3 * RANDOM_MAX_TIME_TO_SERVE_A_REQUEST) ∧
    (s.queue = [] →
      process_queued_requests s t lookup pick =
        .ok ({ s with
                nr_of_times_empty_line := s.nr_of_times_empty_line + 1 },
             false)) ∧
    (s.queue ≠ [] →
      (∃ j r, scanMin s.queue (3 * RANDOM_MAX_TIME_TO_SERVE_A_REQUEST)
          none 0 = some j ∧ s.queue.get? j = some r ∧
        ∀ x ∈ s.queue, r.time_to_live ≤ x.time_to_live) ∧
      ∀ s' b, process_queued_requests s t lookup pick = .ok (s', b) →
        b = true ∧
        s'.nr_of_times_empty_line = s.nr_of_times_empty_line) := by
  refine ⟨?_, ?_, ?_⟩
  · intro w hw
    constructor
    · unfold RANDOM_MAX_TIME_TO_SERVE_A_REQUEST MULTIPLICATION_FACTOR
        TIME_TO_SERVE_A_REQUEST at *
      omega
    · have hdiv : w / (NR_OF_COLLABORATORS + 1) ≤ w := Nat.div_le_self _ _
      unfold NR_OF_COLLABORATORS RANDOM_MAX_TIME_TO_SERVE_A_REQUEST
        MULTIPLICATION_FACTOR TIME_TO_SERVE_A_REQUEST at *
      omega
  · intro he
    have hpre : preludeStep s t lookup = .ok (s, false) := by
      unfold preludeStep
      rw [he]
      rfl
    unfold process_queued_requests
    rw [hpre]
    dsimp only
    rw [policyStep_lookformin hmin, he]
    rfl
  · intro hne
    have hscan : ∃ j r, scanMin s.queue
        (3 * RANDOM_MAX_TIME_TO_SERVE_A_REQUEST) none 0 = some j ∧
        s.queue.get? j = some r ∧
        ∀ x ∈ s.queue, r.time_to_live ≤ x.time_to_live := by
      rcases scanMin_spec s.queue (3 * RANDOM_MAX_TIME_TO_SERVE_A_REQUEST)
          none 0 with ⟨-, hall⟩ | ⟨j, r, hres, -, hget, -, hmin'⟩
      · obtain ⟨x, hx⟩ := List.exists_mem_of_ne_nil s.queue hne
        exact absurd (hall x hx) (by exact_mod_cast not_le.2 (hbound x hx))
      · exact ⟨j, r, hres, by simpa using hget, hmin'⟩
    refine ⟨hscan, ?_⟩
    intro s' b hok
    unfold process_queued_requests at hok
    split at hok <;> rename_i hpre
    · simp at hok
    · simp only [Except.ok.injEq, Prod.mk.injEq] at hok
      obtain ⟨h1, h2⟩ := hok
      subst h1
      subst h2
      exact ⟨rfl, (preludeStep_rel hpre).2.2.2.2.1⟩
    · rename_i s₁
      have hq₁ : s₁.queue = s.queue := preludeStep_false hpre
      obtain ⟨-, -, -, -, hemp, -⟩ := preludeStep_rel hpre
      have hty : s₁.service_type = LOOKFORMIN :=
        (preludeStep_rel hpre).2.2.1.trans hmin
      unfold policyStep at hok
      rw [hty] at hok
      dsimp only at hok
      obtain ⟨j, r, hres, hget, -⟩ := hscan
      rw [hq₁, hres] at hok
      dsimp only at hok
      obtain ⟨q', hat⟩ := @serveAt_total t lookup s.queue j hwd
      rw [hat] at hok
      simp only [Except.ok.injEq, Prod.mk.injEq] at hok
      obtain ⟨h1, h2⟩ := hok
      subst h1
      subst h2
      exact ⟨rfl, hemp⟩

/-- C7: on a LookForMin Dispatch call where the priority scan serves
nothing and some Completed request is queued (with the usual run
invariants on remaining workloads), the minimum search selects a
Completed request, its advance is a no-op reporting no work, yet the
call returns `true`, leaves the queue — hence every Active or Waiting
request — completely unchanged, and does not increment the empty-tick
counter. -/
theorem C7_lookformin_serves_completed (s : myServiceLine) (t : Nat)
    (lookup : Nat → Bool) (pick : Nat)
    (hmin : s.service_type = LOOKFORMIN)
    (hpri : servePriority t lookup s.queue = .ok (s.queue, false))
    (hcomp : ∃ r ∈ s.queue, r.status = REQUEST_COMPLETION)
    (hact : ∀ r ∈ s.queue, r.status = ACTIVE_REQUEST →
      1 ≤ r.time_to_live)
    (hcz : ∀ r ∈ s.queue, r.status = REQUEST_COMPLETION →
      r.time_to_live = 0)
    (hwait : ∀ r ∈ s.queue, r.status = WAITING_REQUEST →
      1 ≤ r.time_to_live) :
    ∃ j r, scanMin s.queue (3 * RANDOM_MAX_TIME_TO_SERVE_A_REQUEST)
        none 0 = some j ∧ s.queue.get? j = some r ∧
      r.status = REQUEST_COMPLETION ∧
      r.serve_request t lookup = .ok (r, false) ∧
      process_queued_requests s t lookup pick =
        .ok (dispatchStats s, true) := by
  obtain ⟨c, hcm, hcs⟩ := hcomp
  have hcnz := hcz c hcm hcs
  rcases scanMin_spec s.queue (3 * RANDOM_MAX_TIME_TO_SERVE_A_REQUEST)
      none 0 with ⟨-, hall⟩ | ⟨j, r, hres, -, hget, -, hmin'⟩
  · exact absurd (hall c hcm) (by
      rw [hcnz]
      unfold RANDOM_MAX_TIME_TO_SERVE_A_REQUEST MULTIPLICATION_FACTOR
        TIME_TO_SERVE_A_REQUEST
      norm_num)
  · simp only [Nat.sub_zero] at hget
    have hrm : r ∈ s.queue := List.get?_mem hget
    have hrc : r.status = REQUEST_COMPLETION := by
      have hr0 : r.time_to_live ≤ 0 := by
        have := hmin' c hcm
        omega
      cases hsr : r.status
      · have := hact r hrm hsr
        omega
      · rfl
      · have := hwait r hrm hsr
        omega
    have hserve : r.serve_request t lookup = .ok (r, false) :=
      serve_request_completed hrc
    refine ⟨j, r, hres, hget, hrc, hserve, ?_⟩
    have hne : s.queue ≠ [] := List.ne_nil_of_mem hcm
    have hpre : preludeStep s t lookup = .ok (dispatchStats s, false) := by
      unfold preludeStep
      rw [if_pos (List.length_pos.2 hne)]
      dsimp only
      split
      · rw [show (dispatchStats s).queue = s.queue from rfl, hpri]
        rfl
      · rfl
    have hres' : scanMin (dispatchStats s).queue
        (3 * RANDOM_MAX_TIME_TO_SERVE_A_REQUEST) none 0 = some j := hres
    have hat : serveAt t lookup (dispatchStats s).queue j = .ok s.queue := by
      show serveAt t lookup s.queue j = .ok s.queue
      unfold serveAt
      rw [hget]
      dsimp only
      rw [hserve]
      dsimp only
      rw [list_set_get_self s.queue j hget]
    unfold process_queued_requests
    rw [hpre]
    dsimp only
    rw [policyStep_lookformin
      (show (dispatchStats s).service_type = LOOKFORMIN from hmin), hres']
    dsimp only
    rw [hat]
    rfl
  -- restoring the untouched queue makes the state exactly `dispatchStats s`

/-! ## Claim C5: the Concurrent rotation cursor -/

/-- When the concurrent loop counts work, the counted identifier belongs
to a request of the updated queue that was served with work reported,
and it exceeds the cursor. -/
theorem serveConcurrent_some {t : Nat} {lookup : Nat → Bool} {cidx : Nat} :
    ∀ {q q' : List myServiceRequest} {sid : Nat},
    serveConcurrent t lookup cidx q = .ok (q', some sid) →
    ∃ r r', r ∈ q ∧ r' ∈ q' ∧
      r.serve_request t lookup = .ok (r', true) ∧
      r'.service_id = sid ∧ cidx < sid := by
  intro q
  induction q with
  | nil => intro q' sid h; simp [serveConcurrent] at h
  | cons r rs ih =>
    intro q' sid h
    unfold serveConcurrent at h
    split at h <;> rename_i hserve
    · simp at h
    · rename_i r₁ done
      split at h <;> rename_i hcond
      · obtain ⟨hd, hgt⟩ := hcond
        simp only [Except.ok.injEq, Prod.mk.injEq, Option.some.injEq] at h
        obtain ⟨h1, h2⟩ := h
        subst h1
        subst h2
        subst hd
        exact ⟨r, r₁, List.mem_cons_self r rs,
          List.mem_cons_self r₁ rs, hserve, rfl, hgt⟩
      · split at h <;> rename_i hrec
        · simp at h
        · rename_i rs' res
          simp only [Except.ok.injEq, Prod.mk.injEq] at h
          obtain ⟨h1, h2⟩ := h
          subst h1
          subst h2
          obtain ⟨a, a', ham, ham', hs, hid, hgt⟩ := ih hrec
          exact ⟨a, a', List.mem_cons_of_mem r ham,
            List.mem_cons_of_mem r₁ ham', hs, hid, hgt⟩

/-- The Concurrent branch of `policyStep`, as an equation usable for
rewriting. -/
theorem policyStep_concurrent {s : myServiceLine} {t : Nat}
    {lookup : Nat → Bool} {pick : Nat}
    (hc : s.service_type = CONCURRENT) :
    policyStep s t lookup pick =
      match serveConcurrent t lookup s.concurrent_idx s.queue with
      | .error e => .error e
      | .ok (q', some sid) =>
        .ok ({ s with
                queue := q'
                concurrent_idx :=
                  if (q'.filter (fun r1 =>
                      decide ((r1.status = ACTIVE_REQUEST ∨
                        r1.status = WAITING_REQUEST) ∧
                        r1.service_id > sid))).length = 0 then 0
                  else sid },
             true)
      | .ok (q', none) =>
        .ok ({ s with
                queue := q'
                nr_of_times_empty_line := s.nr_of_times_empty_line + 1 },
             false) := by
  unfold policyStep
  split <;> rename_i hty <;> rw [hty] at hc <;> simp_all

/-- Identifiers present in the queue survive a dispatch call. -/
theorem forall₂_id_surjective {t : Nat} {lookup : Nat → Bool} :
    ∀ {q q' : List myServiceRequest},
    List.Forall₂ (ServedStep t lookup) q q' →
    ∀ c, (∃ r ∈ q, r.service_id = c) → ∃ r' ∈ q', r'.service_id = c := by
  intro q q' hf
  induction hf with
  | nil => intro c hc; simpa using hc
  | cons hstep htail ih =>
    rename_i a b as bs
    intro c hc
    obtain ⟨r, hr, hrc⟩ := hc
    rcases List.mem_cons.1 hr with rfl | hm
    · refine ⟨b, List.mem_cons_self b bs, ?_⟩
      rcases hstep with rfl | ⟨bb, hserve⟩
      · exact hrc
      · exact (serve_request_frame hserve).1.trans hrc
    · obtain ⟨r', hr', hrc'⟩ := ih c ⟨r, hm, hrc⟩
      exact ⟨r', List.mem_cons_of_mem b hr', hrc'⟩

/-- A dispatch call preserves the cursor invariant. -/
theorem process_cursorInv {s s' : myServiceLine} {t : Nat}
    {lookup : Nat → Bool} {pick : Nat} {b : Bool}
    (hinv : CursorInv s)
    (h : process_queued_requests s t lookup pick = .ok (s', b)) :
    CursorInv s' := by
  unfold process_queued_requests at h
  split at h <;> rename_i hpre
  · simp at h
  · simp only [Except.ok.injEq, Prod.mk.injEq] at h
    obtain ⟨h1, -⟩ := h
    subst h1
    obtain ⟨hf, -, -, -, -, hcur⟩ := preludeStep_rel hpre
    rcases hinv with h0 | ⟨r, hr, hrc⟩
    · exact Or.inl (hcur.trans h0)
    · exact Or.inr (hcur ▸ forall₂_id_surjective hf _ ⟨r, hr, hrc⟩)
  · rename_i s₁
    obtain ⟨hf₁, -, -, -, -, hcur₁⟩ := preludeStep_rel hpre
    have hq₁ : s₁.queue = s.queue := preludeStep_false hpre
    have hinv₁ : CursorInv s₁ := by
      rcases hinv with h0 | ⟨r, hr, hrc⟩
      · exact Or.inl (hcur₁.trans h0)
      · exact Or.inr ⟨r, hq₁ ▸ hr, hrc.trans hcur₁.symm⟩
    -- case on the configured strategy
    rcases hty : s₁.service_type with h | h | h | h | h
    case CONCURRENT =>
      rw [policyStep_concurrent hty] at h
      split at h <;> rename_i hconc
      · simp at h
      · rename_i q' sid
        simp only [Except.ok.injEq, Prod.mk.injEq] at h
        obtain ⟨h1, -⟩ := h
        subst h1
        dsimp only [CursorInv]
        split
        · exact Or.inl rfl
        · obtain ⟨-, r', -, hr', -, hid, -⟩ := serveConcurrent_some hconc
          exact Or.inr ⟨r', hr', hid⟩
      · rename_i q'
        simp only [Except.ok.injEq, Prod.mk.injEq] at h
        obtain ⟨h1, -⟩ := h
        subst h1
        rcases hinv₁ with h0 | ⟨r, hr, hrc⟩
        · exact Or.inl h0
        · exact Or.inr (forall₂_id_surjective (serveConcurrent_rel hconc)
            _ ⟨r, hr, hrc⟩)
    all_goals {
      obtain ⟨hf₂, -, -, -, -, -⟩ := policyStep_rel h
      have hcur₂ : s'.concurrent_idx = s₁.concurrent_idx := by
        unfold policyStep at h
        rw [hty] at h
        dsimp only at h
        split at h <;>
          first
          | (simp at h; done)
          | (simp only [Except.ok.injEq, Prod.mk.injEq] at h;
              obtain ⟨h1, -⟩ := h; subst h1; rfl)
          | (split at h <;>
              first
              | (simp at h; done)
              | (simp only [Except.ok.injEq, Prod.mk.injEq] at h;
                  obtain ⟨h1, -⟩ := h; subst h1; rfl))
      rcases hinv₁ with h0 | ⟨r, hr, hrc⟩
      · exact Or.inl (hcur₂.trans h0)
      · exact Or.inr ((hcur₂ ▸ forall₂_id_surjective hf₂ _ ⟨r, hr, hrc⟩))
    }

/-- Admission preserves the cursor invariant. -/
theorem insert_cursorInv {s : myServiceLine} {nid t w : Nat} {p : Bool}
    {deps : List Nat} (hinv : CursorInv s) :
    CursorInv (insert_new_incoming_request s nid t w p deps).1 := by
  rcases hinv with h0 | ⟨r, hr, hrc⟩
  · exact Or.inl h0
  · exact Or.inr ⟨r, by
      rw [insert_parts]
      exact List.mem_append_left _ hr, hrc⟩

/-- One run unit preserves the cursor invariant. -/
theorem lineUnit_cursorInv {o : Oracle} {arr : List LogEntry}
    {s s' : myServiceLine} {nid nid' u : Nat} (hinv : CursorInv s)
    (h : lineUnit o arr (s, nid) u = .ok (s', nid')) : CursorInv s' := by
  unfold lineUnit at h
  dsimp only at h
  split at h
  · split at h
    · simp only [Except.ok.injEq, Prod.mk.injEq] at h
      obtain ⟨h1, -⟩ := h
      subst h1
      exact insert_cursorInv hinv
    · split at h <;> rename_i hproc
      · simp at h
      · rename_i s₁ b
        simp only [Except.ok.injEq, Prod.mk.injEq] at h
        obtain ⟨h1, -⟩ := h
        subst h1
        exact process_cursorInv hinv hproc
  · split at h
    · split at h <;> rename_i hproc
      · simp at h
      · rename_i s₁ b
        simp only [Except.ok.injEq, Prod.mk.injEq] at h
        obtain ⟨h1, -⟩ := h
        subst h1
        exact process_cursorInv hinv hproc
    · simp only [Except.ok.injEq, Prod.mk.injEq] at h
      obtain ⟨h1, -⟩ := h
      subst h1
      exact insert_cursorInv hinv

/-- Any run prefix preserves the cursor invariant. -/
theorem lineUnits_cursorInv {o : Oracle} {arr : List LogEntry} :
    ∀ {count start : Nat} {s s' : myServiceLine} {nid nid' : Nat},
    CursorInv s →
    lineUnits o arr start count (s, nid) = .ok (s', nid') →
    CursorInv s' := by
  intro count
  induction count with
  | zero =>
    intro start s s' nid nid' hinv h
    unfold lineUnits at h
    simp only [Except.ok.injEq, Prod.mk.injEq] at h
    obtain ⟨h1, -⟩ := h
    subst h1
    exact hinv
  | succ k ih =>
    intro start s s' nid nid' hinv h
    rw [lineUnits_succ] at h
    split at h <;> rename_i hstep
    · simp at h
    · rename_i st₁
      exact ih (@lineUnit_cursorInv _ _ _ st₁.1 _ st₁.2 _ hinv
        (by rw [hstep])) h

/-- C5 (amended): the rotation cursor of a line is always `0` or the
identifier of some queued request, and on a Concurrent Dispatch call
whose configured-policy loop counts a request as this tick's work (its
advance reported work done and its identifier exceeds the cursor), the
cursor is set to that request's identifier — reset to `0` on the same
call when no Active or Waiting request with a strictly greater
identifier remains.  (Priority pre-emption, which can also service a
request on a Concurrent call, leaves the cursor untouched.) -/
theorem C5_concurrent_cursor_amended (s : myServiceLine) (t : Nat)
    (lookup : Nat → Bool) (pick : Nat) (o : Oracle) (arr : List LogEntry)
    (p : ServiceType) (nid : Nat)
    (hconc : s.service_type = CONCURRENT) :
    (∀ s₁ q' sid, preludeStep s t lookup = .ok (s₁, false) →
      serveConcurrent t lookup s₁.concurrent_idx s₁.queue =
        .ok (q', some sid) →
      (∃ r r', r ∈ s₁.queue ∧ r' ∈ q' ∧
        r.serve_request t lookup = .ok (r', true) ∧
        r'.service_id = sid ∧ s₁.concurrent_idx < sid) ∧
      process_queued_requests s t lookup pick =
        .ok ({ s₁ with
                queue := q'
                concurrent_idx :=
                  if (q'.filter (fun r1 =>
                      decide ((r1.status = ACTIVE_REQUEST ∨
                        r1.status = WAITING_REQUEST) ∧
                        r1.service_id > sid))).length = 0 then 0
                  else sid },
             true)) ∧
    (∀ count sf nidf,
      lineUnits o arr 0 count (mkLine p, nid) = .ok (sf, nidf) →
      sf.concurrent_idx = 0 ∨
        ∃ r ∈ sf.queue, r.service_id = sf.concurrent_idx) := by
  constructor
  · intro s₁ q' sid hpre hloop
    have hty₁ : s₁.service_type = CONCURRENT :=
      (preludeStep_rel hpre).2.2.1.trans hconc
    refine ⟨?_, ?_⟩
    · obtain ⟨r, r', hm, hm', hs, hid, hgt⟩ := serveConcurrent_some hloop
      exact ⟨r, r', hm, hm', hs, hid, hgt⟩
    · unfold process_queued_requests
      rw [hpre]
      dsimp only
      rw [policyStep_concurrent hty₁, hloop]
  · intro count sf nidf hrun
    exact lineUnits_cursorInv (Or.inl rfl) hrun

/-- C5 fails as stated: this Concurrent Dispatch call services the
request with identifier 1 (its remaining workload drops from 2 to 1 and
the call returns `true` — the priority pre-emption serviced it), yet the
rotation cursor is left at `0`, not set to the serviced request's
identifier. -/
theorem C5_counterexample_cursor_not_set :
    lineC5.service_type = CONCURRENT ∧
    reqC5.service_id = 1 ∧ reqC5.time_to_live = 2 ∧
    process_queued_requests lineC5 5 (fun _ => false) 0 =
      .ok ({ queue := [{ reqC5 with time_to_live := 1 }]
             arrivals := [(0, 2, true, false)]
             nr_of_times_empty_line := 0
             percentage_of_active_requests := { num := 1, den := 1 }
             accumulate_nr_of_active_requests := 1
             max_nr_of_pending_requests := 1
             concurrent_idx := 0
             service_type := CONCURRENT }, true) ∧
    (0 : Nat) ≠ 1 := by
  decide

/-! ## Claim C8: the empty-result error -/

/-- C8: both runs always complete their timeline (no other fatal error
fires); the run returns the fatal empty-result error exactly when no
request in the line's (respectively the chief's) queue is Completed at
the end, and in every other case the full five-component performance
vector is returned. -/
theorem C8_empty_result_error (line_type chief_type coll_type :
    ServiceType) (ncol : Nat) (arr : List LogEntry) (o : Oracle)
    (nid : Nat) :
    (∃ sf nidf, lineUnits o arr 0 TOTAL_NR_OF_TIME_UNITS
      (mkLine line_type, nid) = .ok (sf, nidf)) ∧
    (∀ sf nidf, lineUnits o arr 0 TOTAL_NR_OF_TIME_UNITS
        (mkLine line_type, nid) = .ok (sf, nidf) →
      (lineRun line_type arr o nid = .error .noCompleted ↔
        completedOf sf.queue = []) ∧
      (∀ e, lineRun line_type arr o nid = .error e → e = .noCompleted) ∧
      (completedOf sf.queue ≠ [] →
        ∃ v, lineRun line_type arr o nid = .ok v)) ∧
    (∃ hf nidf, hierUnits o arr 0 TOTAL_NR_OF_TIME_UNITS
      (mkHierarchy chief_type ncol coll_type, nid) = .ok (hf, nidf)) ∧
    (∀ hf nidf, hierUnits o arr 0 TOTAL_NR_OF_TIME_UNITS
        (mkHierarchy chief_type ncol coll_type, nid) = .ok (hf, nidf) →
      (hierRun chief_type ncol coll_type arr o nid = .error .noCompleted ↔
        completedOf hf.chief.queue = []) ∧
      (∀ e, hierRun chief_type ncol coll_type arr o nid = .error e →
        e = .noCompleted) ∧
      (completedOf hf.chief.queue ≠ [] →
        ∃ v, hierRun chief_type ncol coll_type arr o nid = .ok v)) := by
  have hline0 : GoodQueue 0 (mkLine line_type) := by
    intro r hr
    simp [mkLine] at hr
  have hhier0 : GoodHier 0 (mkHierarchy chief_type ncol coll_type) := by
    refine ⟨fun r hr => by simp [mkHierarchy, mkLine] at hr, ?_⟩
    intro c hc r hr
    rw [List.eq_of_mem_replicate hc] at hr
    simp [mkLine] at hr
  obtain ⟨sf₀, nidf₀, hok₀, -⟩ := @lineUnits_good o arr TOTAL_NR_OF_TIME_UNITS 0 _ nid hline0
  obtain ⟨hf₀, hnidf₀, hhok₀, -⟩ := @hierUnits_good o arr TOTAL_NR_OF_TIME_UNITS 0 _ nid hhier0
  refine ⟨⟨sf₀, nidf₀, hok₀⟩, ?_, ⟨hf₀, hnidf₀, hhok₀⟩, ?_⟩
  · intro sf nidf hok
    have hrun : lineRun line_type arr o nid = perfOf sf := by
      unfold lineRun
      rw [hok]
    obtain ⟨he1, he2, he3⟩ := perfOf_error_iff sf
    rw [hrun]
    exact ⟨he2, he1, he3⟩
  · intro hf nidf hok
    have hrun : hierRun chief_type ncol coll_type arr o nid =
        perfOf hf.chief := by
      unfold hierRun
      rw [hok]
    obtain ⟨he1, he2, he3⟩ := perfOf_error_iff hf.chief
    rw [hrun]
    exact ⟨he2, he1, he3⟩

/-! ## Claim C9: the peak Active-count counter (single line) -/

theorem activeCount_cons (r : myServiceRequest)
    (q : List myServiceRequest) :
    activeCount (r :: q) =
      (if r.status = ACTIVE_REQUEST then 1 else 0) + activeCount q := by
  unfold activeCount
  rw [List.filter_cons]
  split <;> rename_i hx
  · rw [if_pos (of_decide_eq_true hx)]
    simp only [List.length_cons]
    omega
  · rw [if_neg (fun hc => by simp [hc] at hx)]
    simp

/-- Serving cannot produce a Waiting request from a non-Waiting one. -/
theorem serve_request_not_waiting {r r' : myServiceRequest} {t : Nat}
    {lookup : Nat → Bool} {b : Bool}
    (hnw : r.status ≠ WAITING_REQUEST)
    (h : r.serve_request t lookup = .ok (r', b)) :
    r'.status ≠ WAITING_REQUEST := by
  cases hs : r.status
  · unfold myServiceRequest.serve_request at h
    rw [hs] at h
    dsimp only at h
    split at h <;> simp only [Except.ok.injEq, Prod.mk.injEq] at h <;>
      obtain ⟨h1, -⟩ := h <;> rw [← h1] <;> simp
  · rw [serve_request_completed hs] at h
    simp only [Except.ok.injEq, Prod.mk.injEq] at h
    rw [← h.1, hs]
    simp
  · exact absurd hs hnw

/-- Serving a non-Waiting request cannot create an Active request from a
non-Active one. -/
theorem serve_request_active_source {r r' : myServiceRequest} {t : Nat}
    {lookup : Nat → Bool} {b : Bool}
    (hnw : r.status ≠ WAITING_REQUEST)
    (h : r.serve_request t lookup = .ok (r', b))
    (ha : r'.status = ACTIVE_REQUEST) : r.status = ACTIVE_REQUEST := by
  cases hs : r.status
  · rfl
  · rw [serve_request_completed hs] at h
    simp only [Except.ok.injEq, Prod.mk.injEq] at h
    rw [← h.1, hs] at ha
    exact ha
  · exact absurd hs hnw

/-- On a queue with no Waiting request, one round of `serve_request`
steps cannot increase the number of Active requests. -/
theorem activeCount_le_of_forall₂ {t : Nat} {lookup : Nat → Bool} :
    ∀ {q q' : List myServiceRequest},
    (∀ r ∈ q, r.status ≠ WAITING_REQUEST) →
    List.Forall₂ (ServedStep t lookup) q q' →
    activeCount q' ≤ activeCount q := by
  intro q q' hnw hf
  induction hf with
  | nil => exact le_refl 0
  | cons hstep htail ih =>
    rename_i a b as bs
    rw [activeCount_cons, activeCount_cons]
    have htail_le := ih (fun r hr => hnw r (List.mem_cons_of_mem a hr))
    have hhead : (if b.status = ACTIVE_REQUEST then 1 else 0) ≤
        (if a.status = ACTIVE_REQUEST then 1 else 0) := by
      split <;> rename_i hb
      · rcases hstep with rfl | ⟨bb, hserve⟩
        · rw [if_pos hb]
        · rw [if_pos (serve_request_active_source
            (hnw a (List.mem_cons_self a as)) hserve hb)]
      · split <;> omega
    omega

/-- A non-Waiting queue stays non-Waiting under `serve_request` steps. -/
theorem noWaiting_of_forall₂ {t : Nat} {lookup : Nat → Bool} :
    ∀ {q q' : List myServiceRequest},
    (∀ r ∈ q, r.status ≠ WAITING_REQUEST) →
    List.Forall₂ (ServedStep t lookup) q q' →
    ∀ r' ∈ q', r'.status ≠ WAITING_REQUEST := by
  intro q q' hnw hf
  induction hf with
  | nil => intro r' hr'; simp at hr'
  | cons hstep htail ih =>
    rename_i a b as bs
    intro r' hr'
    rcases List.mem_cons.1 hr' with rfl | hm
    · rcases hstep with rfl | ⟨bb, hserve⟩
      · exact hnw r' (List.mem_cons_self r' as)
      · exact serve_request_not_waiting
          (hnw a (List.mem_cons_self a as)) hserve
    · exact ih (fun r hr => hnw r (List.mem_cons_of_mem a hr)) r' hm

theorem insert_singleInv {s : myServiceLine} {nid t w : Nat} {p : Bool}
    (hinv : SingleInv s) :
    SingleInv (insert_new_incoming_request s nid t w p []).1 ∧
    s.max_nr_of_pending_requests ≤
      ((insert_new_incoming_request s nid t w p []).1).max_nr_of_pending_requests := by
  obtain ⟨hnw, hpk⟩ := hinv
  rw [insert_parts]
  refine ⟨⟨?_, ?_⟩, ?_⟩
  · intro r hr
    rcases List.mem_append.1 hr with hm | hm
    · exact hnw r hm
    · rw [List.mem_singleton.1 hm]
      simp [mkRequest]
  · dsimp only
    split <;> omega
  · dsimp only
    split <;> omega

theorem process_singleInv {s s' : myServiceLine} {t : Nat}
    {lookup : Nat → Bool} {pick : Nat} {b : Bool} (hinv : SingleInv s)
    (h : process_queued_requests s t lookup pick = .ok (s', b)) :
    SingleInv s' ∧
    s.max_nr_of_pending_requests ≤ s'.max_nr_of_pending_requests := by
  obtain ⟨hnw, hpk⟩ := hinv
  obtain ⟨hf, -, -, hmax⟩ := process_rel h
  refine ⟨⟨noWaiting_of_forall₂ hnw hf, ?_⟩, le_of_eq hmax.symm⟩
  rw [hmax]
  exact le_trans (activeCount_le_of_forall₂ hnw hf) hpk

/-- One run unit: the invariant is preserved, the peak counter never
decreases, and when it changes it equals the Active count of the new
state. -/
theorem lineUnit_singleInv {o : Oracle} {arr : List LogEntry}
    {s s' : myServiceLine} {nid nid' u : Nat} (hinv : SingleInv s)
    (h : lineUnit o arr (s, nid) u = .ok (s', nid')) :
    SingleInv s' ∧
    s.max_nr_of_pending_requests ≤ s'.max_nr_of_pending_requests ∧
    (s'.max_nr_of_pending_requests = s.max_nr_of_pending_requests ∨
      s'.max_nr_of_pending_requests = activeCount s'.queue) := by
  unfold lineUnit at h
  dsimp only at h
  split at h
  · split at h
    · simp only [Except.ok.injEq, Prod.mk.injEq] at h
      obtain ⟨h1, -⟩ := h
      subst h1
      obtain ⟨hi1, hi2⟩ := @insert_singleInv _ nid u (drawnWeight o u) (drawnPriority o u)
        ⟨hinv.1, hinv.2⟩
      refine ⟨hi1, hi2, ?_⟩
      rw [insert_parts]
      dsimp only
      split
      · exact Or.inr rfl
      · exact Or.inl rfl
    · split at h <;> rename_i hproc
      · simp at h
      · rename_i s₁ b
        simp only [Except.ok.injEq, Prod.mk.injEq] at h
        obtain ⟨h1, -⟩ := h
        subst h1
        obtain ⟨hp1, hp2⟩ := process_singleInv ⟨hinv.1, hinv.2⟩ hproc
        exact ⟨hp1, hp2, Or.inl (process_rel hproc).2.2.2⟩
  · split at h
    · split at h <;> rename_i hproc
      · simp at h
      · rename_i s₁ b
        simp only [Except.ok.injEq, Prod.mk.injEq] at h
        obtain ⟨h1, -⟩ := h
        subst h1
        obtain ⟨hp1, hp2⟩ := process_singleInv ⟨hinv.1, hinv.2⟩ hproc
        exact ⟨hp1, hp2, Or.inl (process_rel hproc).2.2.2⟩
    · rename_i x1 x2 w1 p1 es
      simp only [Except.ok.injEq, Prod.mk.injEq] at h
      obtain ⟨h1, -⟩ := h
      subst h1
      obtain ⟨hi1, hi2⟩ := @insert_singleInv _ nid u x1 x2 ⟨hinv.1, hinv.2⟩
      refine ⟨hi1, hi2, ?_⟩
      rw [insert_parts]
      dsimp only
      split
      · exact Or.inr rfl
      · exact Or.inl rfl

/-- Run-prefix facts for the peak counter: the invariant is preserved,
the peak never decreases, and the final peak is either inherited or was
the Active count observed at the end of some prefix of the run. -/
theorem lineUnits_peak {o : Oracle} {arr : List LogEntry} :
    ∀ {count start : Nat} {s sf : myServiceLine} {nid nidf : Nat},
    SingleInv s →
    lineUnits o arr start count (s, nid) = .ok (sf, nidf) →
    SingleInv sf ∧
    s.max_nr_of_pending_requests ≤ sf.max_nr_of_pending_requests ∧
    (sf.max_nr_of_pending_requests = s.max_nr_of_pending_requests ∨
      ∃ k sk nidk, k ≤ count ∧
        lineUnits o arr start k (s, nid) = .ok (sk, nidk) ∧
        activeCount sk.queue = sf.max_nr_of_pending_requests) := by
  intro count
  induction count with
  | zero =>
    intro start s sf nid nidf hinv h
    unfold lineUnits at h
    simp only [Except.ok.injEq, Prod.mk.injEq] at h
    obtain ⟨h1, -⟩ := h
    subst h1
    exact ⟨hinv, le_refl _, Or.inl rfl⟩
  | succ k ih =>
    intro start s sf nid nidf hinv h
    rw [lineUnits_succ] at h
    split at h <;> rename_i hstep
    · simp at h
    · rename_i st₁
      obtain ⟨hinv₁, hmono₁, hchoice₁⟩ :=
        @lineUnit_singleInv _ _ _ st₁.1 _ st₁.2 _ hinv
          (by rw [hstep])
      obtain ⟨hinvf, hmonof, hchoicef⟩ := @ih _ _ _ st₁.2 _ hinv₁
        (by rw [← h])
      refine ⟨hinvf, le_trans hmono₁ hmonof, ?_⟩
      have hone : lineUnits o arr start 1 (s, nid) = .ok (st₁.1, st₁.2) := by
        rw [lineUnits_succ, hstep]
        rfl
      rcases hchoicef with heq | ⟨j, sj, nj, hjk, hpre, hcount⟩
      · rcases hchoice₁ with heq₁ | hcnt₁
        · exact Or.inl (heq.trans heq₁)
        · exact Or.inr ⟨1, st₁.1, st₁.2, by omega, hone,
            (heq.trans hcnt₁).symm⟩
      · refine Or.inr ⟨j + 1, sj, nj, by omega, ?_, hcount⟩
        rw [show j + 1 = 1 + j from by omega, lineUnits_add, hone]
        exact hpre

/-- `perfOf` copies the three counter components verbatim. -/
theorem perfOf_ok_fields {s : myServiceLine} {v : PerfVector}
    (h : perfOf s = .ok v) :
    v.max_nr_of_pending_requests = s.max_nr_of_pending_requests ∧
    v.nr_of_times_empty_line = s.nr_of_times_empty_line ∧
    v.percentage_of_active_requests = s.percentage_of_active_requests := by
  unfold perfOf at h
  dsimp only at h
  split at h
  · simp at h
  · simp only [Except.ok.injEq] at h
    subst h
    exact ⟨rfl, rfl, rfl⟩

/-- C9 (single line): `insert_new_incoming_request` raises the peak
counter exactly when the Active count after the admission exceeds it;
the fifth component of the returned performance vector is the final peak
counter; that value bounds the Active count observed at the end of every
prefix of the run; and, unless zero, it is the Active count observed at
the end of some prefix. -/
theorem C9_peak_active_count (p : ServiceType) (arr : List LogEntry)
    (o : Oracle) (nid : Nat) :
    (∀ (s : myServiceLine) (n t w : Nat) (pr : Bool) (deps : List Nat),
      (insert_new_incoming_request s n t w pr deps).1.max_nr_of_pending_requests =
        if activeCount (s.queue ++ [mkRequest n t w pr deps]) >
            s.max_nr_of_pending_requests then
          activeCount (s.queue ++ [mkRequest n t w pr deps])
        else s.max_nr_of_pending_requests) ∧
    (∀ sf nidf v,
      lineUnits o arr 0 TOTAL_NR_OF_TIME_UNITS (mkLine p, nid) =
        .ok (sf, nidf) →
      lineRun p arr o nid = .ok v →
      v.max_nr_of_pending_requests = sf.max_nr_of_pending_requests ∧
      (∀ k sk nidk, k ≤ TOTAL_NR_OF_TIME_UNITS →
        lineUnits o arr 0 k (mkLine p, nid) = .ok (sk, nidk) →
        activeCount sk.queue ≤ v.max_nr_of_pending_requests) ∧
      (v.max_nr_of_pending_requests = 0 ∨
        ∃ k sk nidk, k ≤ TOTAL_NR_OF_TIME_UNITS ∧
          lineUnits o arr 0 k (mkLine p, nid) = .ok (sk, nidk) ∧
          activeCount sk.queue = v.max_nr_of_pending_requests)) := by
  have hinv0 : SingleInv (mkLine p) := by
    constructor
    · intro r hr
      simp [mkLine] at hr
    · simp [mkLine, activeCount]
  constructor
  · intro s n t w pr deps
    rw [insert_parts]
  · intro sf nidf v hfull hrun
    have hv : v.max_nr_of_pending_requests =
        sf.max_nr_of_pending_requests := by
      unfold lineRun at hrun
      rw [hfull] at hrun
      exact (perfOf_ok_fields hrun).1
    obtain ⟨hinvf, -, hchoice⟩ := lineUnits_peak hinv0 hfull
    refine ⟨hv, ?_, ?_⟩
    · intro k sk nidk hk hpre
      obtain ⟨hinvk, -, -⟩ := lineUnits_peak hinv0 hpre
      have htail : lineUnits o arr (0 + k)
          (TOTAL_NR_OF_TIME_UNITS - k) (sk, nidk) = .ok (sf, nidf) := by
        have hsplit : TOTAL_NR_OF_TIME_UNITS =
            k + (TOTAL_NR_OF_TIME_UNITS - k) := by omega
        rw [hsplit, lineUnits_add, hpre] at hfull
        exact hfull
      obtain ⟨-, hmono, -⟩ := lineUnits_peak hinvk htail
      rw [hv]
      exact le_trans hinvk.2 hmono
    · rw [hv]
      rcases hchoice with heq | hex
      · exact Or.inl (heq.trans (by simp [mkLine]))
      · exact Or.inr hex

/-! ## Claim C10: replay determinism

Two freshly constructed lines differ only in the value of the global
request-identifier counter at construction time.  We show that shifting
that counter changes nothing observable: the run is simulated step by
step with every request identifier shifted by `d`, and the performance
vector is identical. -/

theorem reqShift_status (d : Nat) (r : myServiceRequest) :
    (reqShift d r).status = r.status := rfl

theorem activeCount_map_shift (d : Nat) :
    ∀ q : List myServiceRequest,
    activeCount (q.map (reqShift d)) = activeCount q := by
  intro q
  induction q with
  | nil => rfl
  | cons r rs ih =>
    rw [List.map_cons, activeCount_cons, activeCount_cons, ih,
      reqShift_status]

/-- With the single-line dependency resolver (constant `false`),
`serve_request` commutes with the identifier shift. -/
theorem serve_shift (d : Nat) (r : myServiceRequest) (t : Nat) :
    (reqShift d r).serve_request t (fun _ => false) =
      match r.serve_request t (fun _ => false) with
      | .error e => .error e
      | .ok (r', b) => .ok (reqShift d r', b) := by
  unfold myServiceRequest.serve_request
  rw [reqShift_status]
  cases hs : r.status <;> dsimp only
  · split <;> rename_i httl
    · rw [if_pos (show r.time_to_live - 1 > 0 from httl)]
      rfl
    · rw [if_neg (show ¬r.time_to_live - 1 > 0 from httl)]
      rfl
  · by_cases hd : r.list_of_requests_it_is_waiting_for = []
    · rw [if_pos hd, if_pos (show
        (reqShift d r).list_of_requests_it_is_waiting_for = [] from by
          simp [reqShift, hd])]
    · rw [if_neg hd, if_neg (show
        ¬(reqShift d r).list_of_requests_it_is_waiting_for = [] from by
          simp [reqShift, hd])]
      obtain ⟨x, xs, hx⟩ := List.exists_cons_of_ne_nil hd
      have h1 : r.list_of_requests_it_is_waiting_for.all
          (fun _ => false) = false := by
        rw [hx]
        rfl
      have h2 : (reqShift d r).list_of_requests_it_is_waiting_for.all
          (fun _ => false) = false := by
        simp [reqShift, hx]
      rw [h1, h2]
      rfl

theorem servePriority_shift (d t : Nat) :
    ∀ q : List myServiceRequest,
    servePriority t (fun _ => false) (q.map (reqShift d)) =
      match servePriority t (fun _ => false) q with
      | .error e => .error e
      | .ok (q', b) => .ok (q'.map (reqShift d), b) := by
  intro q
  induction q with
  | nil => rfl
  | cons r rs ih =>
    rw [List.map_cons]
    unfold servePriority
    rw [show (reqShift d r).priority = r.priority from rfl]
    by_cases hp : r.priority = true
    · rw [if_pos hp, if_pos hp, serve_shift]
      cases hsr : r.serve_request t (fun _ => false) with
      | error e => rfl
      | ok rb =>
        obtain ⟨r', b⟩ := rb
        cases b
        · dsimp only
          rw [ih]
          cases hrec : servePriority t (fun _ => false) rs with
          | error e => rfl
          | ok qb => rfl
        · rfl
    · rw [if_neg hp, if_neg hp, ih]
      cases hrec : servePriority t (fun _ => false) rs with
      | error e => rfl
      | ok qb => rfl

theorem serveSequential_shift (d t : Nat) :
    ∀ q : List myServiceRequest,
    serveSequential t (fun _ => false) (q.map (reqShift d)) =
      match serveSequential t (fun _ => false) q with
      | .error e => .error e
      | .ok (q', b) => .ok (q'.map (reqShift d), b) := by
  intro q
  induction q with
  | nil => rfl
  | cons r rs ih =>
    rw [List.map_cons]
    unfold serveSequential
    rw [serve_shift]
    cases hsr : r.serve_request t (fun _ => false) with
    | error e => rfl
    | ok rb =>
      obtain ⟨r', b⟩ := rb
      cases b
      · dsimp only
        rw [ih]
        cases hrec : serveSequential t (fun _ => false) rs with
        | error e => rfl
        | ok qb => rfl
      · rfl

theorem serveConcurrent_shift (d t cidx : Nat) :
    ∀ q : List myServiceRequest, (∀ r ∈ q, 1 ≤ r.service_id) →
    serveConcurrent t (fun _ => false)
        (if cidx = 0 then 0 else cidx + d) (q.map (reqShift d)) =
      match serveConcurrent t (fun _ => false) cidx q with
      | .error e => .error e
      | .ok (q', res) =>
        .ok (q'.map (reqShift d), res.map (· + d)) := by
  intro q
  induction q with
  | nil => intro _; rfl
  | cons r rs ih =>
    intro hpos
    rw [List.map_cons]
    unfold serveConcurrent
    rw [serve_shift]
    cases hsr : r.serve_request t (fun _ => false) with
    | error e => rfl
    | ok rb =>
      obtain ⟨r', b⟩ := rb
      dsimp only
      have hid : 1 ≤ r'.service_id := by
        rw [(serve_request_frame hsr).1]
        exact hpos r (List.mem_cons_self r rs)
      have hcond : ((b = true) ∧ (reqShift d r').service_id >
          (if cidx = 0 then 0 else cidx + d)) ↔
          ((b = true) ∧ r'.service_id > cidx) := by
        apply and_congr_right
        intro hb
        unfold reqShift
        dsimp only
        split <;> rename_i hc
        · subst hc
          omega
        · omega
      by_cases hcnd : (b = true) ∧ r'.service_id > cidx
      · rw [if_pos (hcond.mpr hcnd), if_pos hcnd]
        rfl
      · rw [if_neg (fun hx => hcnd (hcond.mp hx)), if_neg hcnd,
          ih (fun x hx => hpos x (List.mem_cons_of_mem r hx))]
        cases hrec : serveConcurrent t (fun _ => false) cidx rs with
        | error e => rfl
        | ok qb => rfl

theorem scanMax_shift (d : Nat) :
    ∀ (q : List myServiceRequest) (mw : Int) (best : Option Nat) (i : Nat),
    scanMax (q.map (reqShift d)) mw best i = scanMax q mw best i := by
  intro q
  induction q with
  | nil => intro mw best i; rfl
  | cons r rs ih =>
    intro mw best i
    rw [List.map_cons]
    unfold scanMax
    rw [show (reqShift d r).time_to_live = r.time_to_live from rfl]
    split
    · exact ih _ _ _
    · exact ih _ _ _

theorem scanMin_shift (d : Nat) :
    ∀ (q : List myServiceRequest) (mw : Int) (best : Option Nat) (i : Nat),
    scanMin (q.map (reqShift d)) mw best i = scanMin q mw best i := by
  intro q
  induction q with
  | nil => intro mw best i; rfl
  | cons r rs ih =>
    intro mw best i
    rw [List.map_cons]
    unfold scanMin
    rw [show (reqShift d r).time_to_live = r.time_to_live from rfl]
    split
    · exact ih _ _ _
    · exact ih _ _ _

theorem serveAt_shift (d t : Nat) (q : List myServiceRequest) (i : Nat) :
    serveAt t (fun _ => false) (q.map (reqShift d)) i =
      match serveAt t (fun _ => false) q i with
      | .error e => .error e
      | .ok q' => .ok (q'.map (reqShift d)) := by
  unfold serveAt
  rw [List.get?_map]
  cases hget : q.get? i with
  | none => rfl
  | some r =>
    dsimp only [Option.map]
    rw [serve_shift]
    cases hsr : r.serve_request t (fun _ => false) with
    | error e => rfl
    | ok rb =>
      obtain ⟨r', b⟩ := rb
      dsimp only
      rw [List.map_set]

theorem mkRequest_shift (d nid t w : Nat) (p : Bool) :
    mkRequest (nid + d) t w p [] = reqShift d (mkRequest nid t w p []) := rfl

theorem filter_priority_shift (d : Nat) (q : List myServiceRequest) :
    (q.map (reqShift d)).filter (fun r => r.priority) =
      (q.filter (fun r => r.priority)).map (reqShift d) := by
  rw [List.filter_map]
  rfl

theorem dispatchStats_shift (d : Nat) (s : myServiceLine) :
    dispatchStats (lineShift d s) = lineShift d (dispatchStats s) := by
  unfold dispatchStats lineShift
  dsimp only
  rw [activeCount_map_shift, List.length_map]

theorem insert_shift (d : Nat) (s : myServiceLine) (nid t w : Nat)
    (p : Bool) :
    (insert_new_incoming_request (lineShift d s) (nid + d) t w p []).1 =
      lineShift d (insert_new_incoming_request s nid t w p []).1 ∧
    (insert_new_incoming_request (lineShift d s) (nid + d) t w p []).2.2 =
      (insert_new_incoming_request s nid t w p []).2.2 + d := by
  rw [insert_parts, insert_parts]
  refine ⟨?_, by dsimp only; omega⟩
  unfold lineShift
  dsimp only
  rw [mkRequest_shift, show [reqShift d (mkRequest nid t w p [])] =
    List.map (reqShift d) [mkRequest nid t w p []] from rfl,
    ← List.map_append, activeCount_map_shift]

theorem preludeStep_shift (d : Nat) (s : myServiceLine) (t : Nat) :
    preludeStep (lineShift d s) t (fun _ => false) =
      match preludeStep s t (fun _ => false) with
      | .error e => .error e
      | .ok (s₁, b) => .ok (lineShift d s₁, b) := by
  unfold preludeStep
  rw [show (lineShift d s).queue = s.queue.map (reqShift d) from rfl,
    List.length_map]
  by_cases hl : s.queue.length > 0
  · rw [if_pos hl, if_pos hl]
    dsimp only
    rw [show (dispatchStats (lineShift d s)).queue =
        (dispatchStats s).queue.map (reqShift d) from
      by rw [dispatchStats_shift]; rfl]
    rw [filter_priority_shift, List.length_map]
    by_cases hp : (List.filter (fun r => r.priority)
        (dispatchStats s).queue).length > 0
    · rw [if_pos hp, if_pos hp, servePriority_shift]
      cases hsp : servePriority t (fun _ => false)
          (dispatchStats s).queue with
      | error e => rfl
      | ok qb =>
        obtain ⟨q', done⟩ := qb
        dsimp only
        rw [dispatchStats_shift]
        rfl
    · rw [if_neg hp, if_neg hp]
      dsimp only
      rw [dispatchStats_shift]
  · rw [if_neg hl, if_neg hl]

theorem policyStep_shift (d : Nat) (s : myServiceLine) (t pick : Nat)
    (hpos : ∀ r ∈ s.queue, 1 ≤ r.service_id) :
    policyStep (lineShift d s) t (fun _ => false) pick =
      match policyStep s t (fun _ => false) pick with
      | .error e => .error e
      | .ok (s', b) => .ok (lineShift d s', b) := by
  unfold policyStep
  rw [show (lineShift d s).service_type = s.service_type from rfl]
  cases hty : s.service_type
  · -- SEQUENTIAL
    dsimp only
    rw [show (lineShift d s).queue = s.queue.map (reqShift d) from rfl,
      serveSequential_shift]
    cases hseq : serveSequential t (fun _ => false) s.queue with
    | error e => rfl
    | ok qb =>
      obtain ⟨q', done⟩ := qb
      cases done <;> rfl
  · -- CONCURRENT
    dsimp only
    rw [show (lineShift d s).queue = s.queue.map (reqShift d) from rfl,
      show (lineShift d s).concurrent_idx =
        (if s.concurrent_idx = 0 then 0 else s.concurrent_idx + d) from
        rfl,
      serveConcurrent_shift d t s.concurrent_idx s.queue hpos]
    cases hconc : serveConcurrent t (fun _ => false) s.concurrent_idx
        s.queue with
    | error e => rfl
    | ok qb =>
      obtain ⟨q', res⟩ := qb
      cases res with
      | none => rfl
      | some sid =>
        dsimp only [Option.map]
        have hsid : 1 ≤ sid := by
          obtain ⟨-, r', -, -, -, hid, hgt⟩ := serveConcurrent_some hconc
          omega
        have hrem : (List.filter (fun r1 =>
            decide ((r1.status = ACTIVE_REQUEST ∨
              r1.status = WAITING_REQUEST) ∧
              r1.service_id > sid + d)) (q'.map (reqShift d))).length =
            (List.filter (fun r1 =>
              decide ((r1.status = ACTIVE_REQUEST ∨
                r1.status = WAITING_REQUEST) ∧
                r1.service_id > sid)) q').length := by
          rw [List.filter_map, List.length_map]
          refine congrArg List.length (List.filter_congr ?_)
          intro r1 hr1
          show decide ((r1.status = ACTIVE_REQUEST ∨
              r1.status = WAITING_REQUEST) ∧
              r1.service_id + d > sid + d) = _
          by_cases hst : r1.status = ACTIVE_REQUEST ∨
              r1.status = WAITING_REQUEST
          · by_cases hgt : r1.service_id > sid
            · rw [decide_eq_true (⟨hst, by omega⟩ :
                  (r1.status = ACTIVE_REQUEST ∨
                    r1.status = WAITING_REQUEST) ∧
                    r1.service_id + d > sid + d),
                decide_eq_true ⟨hst, hgt⟩]
            · rw [decide_eq_false (fun hx => hgt (by omega : r1.service_id > sid)),
                decide_eq_false (fun hx => hgt hx.2)]
          · rw [decide_eq_false (fun hx => hst hx.1),
              decide_eq_false (fun hx => hst hx.1)]
        rw [hrem]
        by_cases hz : (List.filter (fun r1 =>
            decide ((r1.status = ACTIVE_REQUEST ∨
              r1.status = WAITING_REQUEST) ∧
              r1.service_id > sid)) q').length = 0
        · rw [if_pos hz, if_pos hz]
          rfl
        · rw [if_neg hz, if_neg hz]
          have : (if sid = 0 then 0 else sid + d) = sid + d := by
            rw [if_neg (by omega)]
          unfold lineShift
          dsimp only
          rw [this]
  · -- LOOKFORMAX
    dsimp only
    rw [show (lineShift d s).queue = s.queue.map (reqShift d) from rfl,
      scanMax_shift]
    cases hscan : scanMax s.queue (-1) none 0 with
    | none => rfl
    | some i =>
      dsimp only
      rw [serveAt_shift]
      cases hat : serveAt t (fun _ => false) s.queue i with
      | error e => rfl
      | ok q' => rfl
  · -- LOOKFORMIN
    dsimp only
    rw [show (lineShift d s).queue = s.queue.map (reqShift d) from rfl,
      scanMin_shift]
    cases hscan : scanMin s.queue
        (3 * RANDOM_MAX_TIME_TO_SERVE_A_REQUEST) none 0 with
    | none => rfl
    | some i =>
      dsimp only
      rw [serveAt_shift]
      cases hat : serveAt t (fun _ => false) s.queue i with
      | error e => rfl
      | ok q' => rfl
  · -- RANDOMCHOICE
    dsimp only
    rw [show (lineShift d s).queue = s.queue.map (reqShift d) from rfl]
    by_cases hq : s.queue = []
    · rw [hq]
      rfl
    · rw [if_neg (by simp [hq]), if_neg hq, List.length_map,
        serveAt_shift]
      cases hat : serveAt t (fun _ => false) s.queue
          (pick % s.queue.length) with
      | error e => rfl
      | ok q' => rfl

theorem process_shift (d : Nat) (s : myServiceLine) (t pick : Nat)
    (hpos : ∀ r ∈ s.queue, 1 ≤ r.service_id) :
    process_queued_requests (lineShift d s) t (fun _ => false) pick =
      match process_queued_requests s t (fun _ => false) pick with
      | .error e => .error e
      | .ok (s', b) => .ok (lineShift d s', b) := by
  unfold process_queued_requests
  rw [preludeStep_shift]
  cases hpre : preludeStep s t (fun _ => false) with
  | error e => rfl
  | ok sb =>
    obtain ⟨s₁, b⟩ := sb
    cases b
    · dsimp only
      have hpos₁ : ∀ r ∈ s₁.queue, 1 ≤ r.service_id := by
        rw [preludeStep_false hpre]
        exact hpos
      rw [policyStep_shift d s₁ t pick hpos₁]
    · rfl

theorem forall₂_idsPos {t : Nat} {lookup : Nat → Bool} :
    ∀ {q q' : List myServiceRequest},
    List.Forall₂ (ServedStep t lookup) q q' →
    (∀ r ∈ q, 1 ≤ r.service_id) → ∀ r' ∈ q', 1 ≤ r'.service_id := by
  intro q q' hf
  induction hf with
  | nil => intro _ r' hr'; simp at hr'
  | cons hstep htail ih =>
    rename_i a b as bs
    intro hpos r' hr'
    rcases List.mem_cons.1 hr' with rfl | hm
    · rcases hstep with rfl | ⟨bb, hserve⟩
      · exact hpos r' (List.mem_cons_self r' as)
      · rw [(serve_request_frame hserve).1]
        exact hpos a (List.mem_cons_self a as)
    · exact ih (fun r hr => hpos r (List.mem_cons_of_mem a hr)) r' hm

theorem lineUnit_idsPos {o : Oracle} {arr : List LogEntry}
    {s s' : myServiceLine} {nid nid' u : Nat} (hpos : IdsPos s)
    (hnid : 1 ≤ nid)
    (h : lineUnit o arr (s, nid) u = .ok (s', nid')) :
    IdsPos s' ∧ 1 ≤ nid' := by
  have hins : ∀ (w : Nat) (pr : Bool),
      IdsPos (insert_new_incoming_request s nid u w pr []).1 := by
    intro w pr r hr
    rw [insert_parts] at hr
    dsimp only at hr
    rcases List.mem_append.1 hr with hm | hm
    · exact hpos r hm
    · rw [List.mem_singleton.1 hm]
      exact hnid
  unfold lineUnit at h
  dsimp only at h
  split at h
  · split at h
    · simp only [Except.ok.injEq, Prod.mk.injEq] at h
      obtain ⟨h1, h2⟩ := h
      subst h1
      subst h2
      exact ⟨hins _ _, by rw [insert_parts]; dsimp only; omega⟩
    · split at h <;> rename_i hproc
      · simp at h
      · rename_i s₁ b
        simp only [Except.ok.injEq, Prod.mk.injEq] at h
        obtain ⟨h1, h2⟩ := h
        subst h1
        subst h2
        exact ⟨forall₂_idsPos (process_rel hproc).1 hpos, hnid⟩
  · split at h
    · split at h <;> rename_i hproc
      · simp at h
      · rename_i s₁ b
        simp only [Except.ok.injEq, Prod.mk.injEq] at h
        obtain ⟨h1, h2⟩ := h
        subst h1
        subst h2
        exact ⟨forall₂_idsPos (process_rel hproc).1 hpos, hnid⟩
    · simp only [Except.ok.injEq, Prod.mk.injEq] at h
      obtain ⟨h1, h2⟩ := h
      subst h1
      subst h2
      exact ⟨hins _ _, by rw [insert_parts]; dsimp only; omega⟩

theorem lineUnit_shift (d : Nat) (o : Oracle) (arr : List LogEntry)
    (s : myServiceLine) (nid u : Nat) (hpos : IdsPos s) :
    lineUnit o arr (lineShift d s, nid + d) u =
      match lineUnit o arr (s, nid) u with
      | .error e => .error e
      | .ok (s', nid') => .ok (lineShift d s', nid' + d) := by
  unfold lineUnit
  dsimp only
  split
  · split
    · obtain ⟨hi1, hi2⟩ := insert_shift d s nid u (drawnWeight o u)
        (drawnPriority o u)
      rw [hi1, hi2]
    · rw [process_shift d s u (o.pick u) hpos]
      cases hproc : process_queued_requests s u (fun _ => false)
          (o.pick u) with
      | error e => rfl
      | ok sb => rfl
  · split
    · rw [process_shift d s u (o.pick u) hpos]
      cases hproc : process_queued_requests s u (fun _ => false)
          (o.pick u) with
      | error e => rfl
      | ok sb => rfl
    · rename_i x1 x2 w1 p1 es
      obtain ⟨hi1, hi2⟩ := insert_shift d s nid u x1 x2
      rw [hi1, hi2]

theorem lineUnits_shift (d : Nat) (o : Oracle) (arr : List LogEntry) :
    ∀ (count start : Nat) (s : myServiceLine) (nid : Nat), IdsPos s →
    1 ≤ nid →
    lineUnits o arr start count (lineShift d s, nid + d) =
      match lineUnits o arr start count (s, nid) with
      | .error e => .error e
      | .ok (s', nid') => .ok (lineShift d s', nid' + d) := by
  intro count
  induction count with
  | zero => intro start s nid _ _; rfl
  | succ k ih =>
    intro start s nid hpos hnid
    rw [lineUnits_succ, lineUnits_succ, lineUnit_shift d o arr s nid
      start hpos]
    cases hstep : lineUnit o arr (s, nid) start with
    | error e => rfl
    | ok st₁ =>
      obtain ⟨s₁, nid₁⟩ := st₁
      obtain ⟨hpos₁, hnid₁⟩ := lineUnit_idsPos hpos hnid hstep
      dsimp only
      rw [ih (start + 1) s₁ nid₁ hpos₁ hnid₁]

theorem completedOf_shift (d : Nat) (q : List myServiceRequest) :
    completedOf (q.map (reqShift d)) = (completedOf q).map (reqShift d) := by
  unfold completedOf
  rw [List.filter_map]
  rfl

theorem perfOf_shift (d : Nat) (s : myServiceLine) :
    perfOf (lineShift d s) = perfOf s := by
  unfold perfOf
  rw [show (lineShift d s).queue = s.queue.map (reqShift d) from rfl,
    completedOf_shift, List.map_map,
    show extraDuration ∘ reqShift d = extraDuration from rfl]
  rfl

theorem lineShift_mkLine (d : Nat) (p : ServiceType) :
    lineShift d (mkLine p) = mkLine p := rfl

theorem lineRun_shift (p : ServiceType) (arr : List LogEntry) (o : Oracle)
    (d nid : Nat) (hnid : 1 ≤ nid) :
    lineRun p arr o (nid + d) = lineRun p arr o nid := by
  unfold lineRun
  rw [show ((mkLine p, nid + d) : myServiceLine × Nat) =
      (lineShift d (mkLine p), nid + d) from by rw [lineShift_mkLine],
    lineUnits_shift d o arr TOTAL_NR_OF_TIME_UNITS 0 (mkLine p) nid
      (by intro r hr; simp [mkLine] at hr) hnid]
  cases lineUnits o arr 0 TOTAL_NR_OF_TIME_UNITS (mkLine p, nid) with
  | error e => rfl
  | ok st =>
    obtain ⟨s, nid'⟩ := st
    exact perfOf_shift d s

/-- C10: for every dispatch policy and every recorded arrival log,
running a freshly constructed `myServiceLine` twice over that same log
with the same policy (and the same random draws, here any two positive
starting values of the global identifier counter) yields identical
performance vectors. -/
theorem C10_replay_determinism (p : ServiceType) (arr : List LogEntry)
    (o : Oracle) (c1 c2 : Nat) (h1 : 1 ≤ c1) (h2 : 1 ≤ c2) :
    lineRun p arr o c1 = lineRun p arr o c2 := by
  have e1 : lineRun p arr o c1 = lineRun p arr o 1 := by
    have h := lineRun_shift p arr o (c1 - 1) 1 le_rfl
    rwa [show 1 + (c1 - 1) = c1 from by omega] at h
  have e2 : lineRun p arr o c2 = lineRun p arr o 1 := by
    have h := lineRun_shift p arr o (c2 - 1) 1 le_rfl
    rwa [show 1 + (c2 - 1) = c2 from by omega] at h
  rw [e1, e2]

/-- Witness for C1 at a one-request priority queue. -/
theorem C1_priority_preemption_witness :
    (∀ r ∈ lineW1.queue, WellDep r) ∧
    ((∀ q₁ r r' q₂, lineW1.queue = q₁ ++ r :: q₂ →
      (∀ x ∈ q₁, x.priority = false) → r.priority = true →
      r.serve_request 1 (fun _ => false) = .ok (r', true) →
      ∀ pol, process_queued_requests { lineW1 with service_type := pol } 1
          (fun _ => false) 0 =
        .ok ({ dispatchStats { lineW1 with service_type := pol } with
                queue := q₁ ++ r' :: q₂ }, true)) ∧
    ((∃ r ∈ lineW1.queue, r.priority = true ∧ r.status = ACTIVE_REQUEST) →
      ∃ q', servePriority 1 (fun _ => false) lineW1.queue =
          .ok (q', true) ∧
        ∀ pol, process_queued_requests { lineW1 with service_type := pol }
            1 (fun _ => false) 0 =
          .ok ({ dispatchStats { lineW1 with service_type := pol } with
                  queue := q' }, true))) :=
  ⟨by unfold WellDep; decide,
   C1_priority_preemption lineW1 1 (fun _ => false) 0
     (by unfold WellDep; decide)⟩

/-- Witness for C2 at a Waiting request with one dependency. -/
theorem C2_serve_request_waiting_witness :
    reqW2.status = WAITING_REQUEST ∧
    ((reqW2.list_of_requests_it_is_waiting_for = [] →
      reqW2.serve_request 0 (fun _ => true) = .error .badWaiting) ∧
    (reqW2.list_of_requests_it_is_waiting_for ≠ [] →
      ((∃ d ∈ reqW2.list_of_requests_it_is_waiting_for,
          (fun _ => true) d = false) →
        reqW2.serve_request 0 (fun _ => true) = .ok (reqW2, false)) ∧
      ((∀ d ∈ reqW2.list_of_requests_it_is_waiting_for,
          (fun _ => true) d = true) →
        reqW2.serve_request 0 (fun _ => true) =
          .ok ({ reqW2 with status := ACTIVE_REQUEST }, true)))) :=
  ⟨rfl, C2_serve_request_waiting reqW2 0 (fun _ => true) rfl⟩

/-- Witness for C3 at a one-entry arrival log of workload `5`. -/
theorem C3_completed_extra_nonneg_witness :
    (∀ e ∈ ([(0, 5, false, false)] : List LogEntry), 1 ≤ e.2.1) ∧
    ((∀ sf nidf, lineUnits zeroOracle [(0, 5, false, false)] 0
        TOTAL_NR_OF_TIME_UNITS (mkLine SEQUENTIAL, 1) = .ok (sf, nidf) →
      ∀ r ∈ completedOf sf.queue, 0 ≤ extraDuration r) ∧
    (∀ v, lineRun SEQUENTIAL [(0, 5, false, false)] zeroOracle 1 =
        .ok v → 0 ≤ v.average_extra_duration.toRat) ∧
    (∀ hf nidf, hierUnits zeroOracle [(0, 5, false, false)] 0
        TOTAL_NR_OF_TIME_UNITS (mkHierarchy SEQUENTIAL 3 SEQUENTIAL, 1) =
        .ok (hf, nidf) →
      ∀ r ∈ completedOf hf.chief.queue, 0 ≤ extraDuration r) ∧
    (∀ v, hierRun SEQUENTIAL 3 SEQUENTIAL [(0, 5, false, false)]
        zeroOracle 1 = .ok v → 0 ≤ v.average_extra_duration.toRat)) :=
  ⟨by decide,
   C3_completed_extra_nonneg SEQUENTIAL SEQUENTIAL SEQUENTIAL 3
     [(0, 5, false, false)] zeroOracle 1 (by decide)⟩

/-- Witness for the amended C5 at a freshly constructed Concurrent
line. -/
theorem C5_concurrent_cursor_amended_witness :
    (mkLine CONCURRENT).service_type = CONCURRENT ∧
    ((∀ s₁ q' sid,
      preludeStep (mkLine CONCURRENT) 0 (fun _ => false) =
        .ok (s₁, false) →
      serveConcurrent 0 (fun _ => false) s₁.concurrent_idx s₁.queue =
        .ok (q', some sid) →
      (∃ r r', r ∈ s₁.queue ∧ r' ∈ q' ∧
        r.serve_request 0 (fun _ => false) = .ok (r', true) ∧
        r'.service_id = sid ∧ s₁.concurrent_idx < sid) ∧
      process_queued_requests (mkLine CONCURRENT) 0 (fun _ => false) 0 =
        .ok ({ s₁ with
                queue := q'
                concurrent_idx :=
                  if (q'.filter (fun r1 =>
                      decide ((r1.status = ACTIVE_REQUEST ∨
                        r1.status = WAITING_REQUEST) ∧
                        r1.service_id > sid))).length = 0 then 0
                  else sid },
             true)) ∧
    (∀ count sf nidf,
      lineUnits zeroOracle [] 0 count (mkLine CONCURRENT, 1) =
        .ok (sf, nidf) →
      sf.concurrent_idx = 0 ∨
        ∃ r ∈ sf.queue, r.service_id = sf.concurrent_idx)) :=
  ⟨rfl, C5_concurrent_cursor_amended (mkLine CONCURRENT) 0 (fun _ => false)
    0 zeroOracle [] CONCURRENT 1 rfl⟩

/-- Witness for C6 at a freshly constructed LookForMin line. -/
theorem C6_lookformin_selects_min_witness :
    (mkLine LOOKFORMIN).service_type = LOOKFORMIN ∧
    (∀ r ∈ (mkLine LOOKFORMIN).queue,
      r.time_to_live < 3 * RANDOM_MAX_TIME_TO_SERVE_A_REQUEST) ∧
    (∀ r ∈ (mkLine LOOKFORMIN).queue, WellDep r) ∧
    ((∀ w : Nat, w ≤ RANDOM_MAX_TIME_TO_SERVE_A_REQUEST →
      w < 3 * RANDOM_MAX_TIME_TO_SERVE_A_REQUEST ∧
      (NR_OF_COLLABORATORS + 1) * (w / (NR_OF_COLLABORATORS + 1) + 1) <
        3 * RANDOM_MAX_TIME_TO_SERVE_A_REQUEST) ∧
    ((mkLine LOOKFORMIN).queue = [] →
      process_queued_requests (mkLine LOOKFORMIN) 0 (fun _ => false) 0 =
        .ok ({ mkLine LOOKFORMIN with
                nr_of_times_empty_line :=
                  (mkLine LOOKFORMIN).nr_of_times_empty_line + 1 },
             false)) ∧
    ((mkLine LOOKFORMIN).queue ≠ [] →
      (∃ j r, scanMin (mkLine LOOKFORMIN).queue
          (3 * RANDOM_MAX_TIME_TO_SERVE_A_REQUEST) none 0 = some j ∧
        (mkLine LOOKFORMIN).queue.get? j = some r ∧
        ∀ x ∈ (mkLine LOOKFORMIN).queue,
          r.time_to_live ≤ x.time_to_live) ∧
      ∀ s' b, process_queued_requests (mkLine LOOKFORMIN) 0
          (fun _ => false) 0 = .ok (s', b) →
        b = true ∧
        s'.nr_of_times_empty_line =
          (mkLine LOOKFORMIN).nr_of_times_empty_line)) :=
  ⟨rfl, by decide, by unfold WellDep; decide,
   C6_lookformin_selects_min (mkLine LOOKFORMIN) 0 (fun _ => false) 0
     rfl (by decide) (by unfold WellDep; decide)⟩

/-- Witness for C7 at a LookForMin line holding one Completed request. -/
theorem C7_lookformin_serves_completed_witness :
    lineW7.service_type = LOOKFORMIN ∧
    servePriority 5 (fun _ => false) lineW7.queue =
      .ok (lineW7.queue, false) ∧
    (∃ r ∈ lineW7.queue, r.status = REQUEST_COMPLETION) ∧
    (∀ r ∈ lineW7.queue, r.status = ACTIVE_REQUEST →
      1 ≤ r.time_to_live) ∧
    (∀ r ∈ lineW7.queue, r.status = REQUEST_COMPLETION →
      r.time_to_live = 0) ∧
    (∀ r ∈ lineW7.queue, r.status = WAITING_REQUEST →
      1 ≤ r.time_to_live) ∧
    (∃ j r, scanMin lineW7.queue
        (3 * RANDOM_MAX_TIME_TO_SERVE_A_REQUEST) none 0 = some j ∧
      lineW7.queue.get? j = some r ∧
      r.status = REQUEST_COMPLETION ∧
      r.serve_request 5 (fun _ => false) = .ok (r, false) ∧
      process_queued_requests lineW7 5 (fun _ => false) 0 =
        .ok (dispatchStats lineW7, true)) :=
  ⟨rfl, by decide, by decide, by decide, by decide, by decide,
   C7_lookformin_serves_completed lineW7 5 (fun _ => false) 0 rfl
     (by decide) (by decide) (by decide) (by decide) (by decide)⟩

/-- Witness for C10: two runs over the same log from identifier counters
1 and 5. -/
theorem C10_replay_determinism_witness :
    1 ≤ 1 ∧ 1 ≤ 5 ∧
    lineRun CONCURRENT [(0, 5, false, false)] zeroOracle 1 =
      lineRun CONCURRENT [(0, 5, false, false)] zeroOracle 5 :=
  ⟨Nat.le_refl 1, by decide,
   C10_replay_determinism CONCURRENT [(0, 5, false, false)] zeroOracle
     1 5 (Nat.le_refl 1) (by decide)⟩
